import Mathlib

/-!
Shallow embedding of the TINY-plus parser (src/PARSE.C) and proofs about it.

The parser is a set of mutually recursive productions over one token of
lookahead.  We embed it as a state-passing function on `PState`, indexed by a
fuel parameter (the C code's recursion is unbounded; every production and
every loop iteration consumes one unit of fuel, and running out of fuel is the
distinguished outcome `PResult.out`).  Tree pointers are modelled by the type
`TreeNode`, whose `null` constructor is the C NULL pointer; dereferencing
`null` (possible in the C code when the node factory returns NULL) is the
distinguished outcome `PResult.crash`.  Node allocation is driven by an
oracle list of booleans in the state: each factory call pops one entry
(`false` = allocation fails, returning `null`); once the oracle is exhausted
every allocation succeeds, so an empty oracle models the always-succeeding
allocator.

C mutation of `sibling` tail pointers (the `root`/`lst` pairs and the
`t`/`p` pair of `stmt_sequence`) is rendered functionally: each loop threads
the list of nodes currently chained from `root`, and the chain is
materialised by `linkSiblings` when the production returns.  Mutation of the
tail node's child slots after it is linked (`var_list`) is rendered by
updating the last element of the threaded list.
-/

set_option linter.unusedVariables false

namespace Tiny

/-- Token kinds used by parse.c.  The enum itself lives in globals.h (not part
of the parser source); the constructors here are exactly the kinds the parser
mentions. -/
inductive TokenKind where
  | ENDFILE | IF | THEN | ELSE | END | REPEAT | UNTIL | READ | WRITE
  | ID | NUM | ASSIGN | LT | EQ | GT | PLUS | MINUS | TIMES | OVER
  | LPAREN | RPAREN | SEMI | LMBRACKET | RMBRACKET | COMMA | AND
  | FUNC | VAR | WHILE | FOR | RETURN | LAMBDA | COLON
deriving DecidableEq, Repr

/-- One scanner token: kind plus raw text (`tokenString`). -/
structure Tok where
  kind : TokenKind
  text : String
deriving DecidableEq, Repr

/-- Node kinds: the StmtK family (IfK .. CallK) and the ExpK family
(OpK .. ParamsK), flattened into one enumeration. -/
inductive NodeKind where
  | IfK | RepeatK | AssignK | ReadK | WriteK | FuncK | VarK | WhileK | ForK
  | ReturnK | CallK
  | OpK | ConstK | IdK | ValueK | DimK | ParamsK
deriving DecidableEq, Repr

/-- The `attr` union of a tree node: a name, an integer value, or an operator
token, or unset. -/
inductive Attr where
  | unset
  | name (s : String)
  | val (n : Int)
  | op (t : TokenKind)
deriving DecidableEq, Repr

/-- A `TreeNode *`: either the NULL pointer or a node with kind, attribute,
four ordered child slots and a sibling link. -/
inductive TreeNode where
  | null
  | mk (kind : NodeKind) (attr : Attr)
      (child0 child1 child2 child3 : TreeNode)
      (sibling : TreeNode)
deriving DecidableEq, Repr

def TreeNode.isNull : TreeNode → Bool
  | .null => true
  | .mk _ _ _ _ _ _ _ => false

def TreeNode.kind : TreeNode → Option NodeKind
  | .null => none
  | .mk k _ _ _ _ _ _ => some k

def TreeNode.sibling : TreeNode → TreeNode
  | .null => .null
  | .mk _ _ _ _ _ _ sib => sib

/-- `t->child[i] = v` on a non-null node held by value; identity on null
(never used on null — unchecked C stores go through `derefSetChild`). -/
def TreeNode.setChild (t : TreeNode) (i : Nat) (v : TreeNode) : TreeNode :=
  match t, i with
  | .mk k a _ c1 c2 c3 sib, 0 => .mk k a v c1 c2 c3 sib
  | .mk k a c0 _ c2 c3 sib, 1 => .mk k a c0 v c2 c3 sib
  | .mk k a c0 c1 _ c3 sib, 2 => .mk k a c0 c1 v c3 sib
  | .mk k a c0 c1 c2 _ sib, 3 => .mk k a c0 c1 c2 v sib
  | t, _ => t

def TreeNode.setSibling (t : TreeNode) (v : TreeNode) : TreeNode :=
  match t with
  | .null => .null
  | .mk k a c0 c1 c2 c3 _ => .mk k a c0 c1 c2 c3 v

def TreeNode.setName (t : TreeNode) (s : String) : TreeNode :=
  match t with
  | .null => .null
  | .mk k _ c0 c1 c2 c3 sib => .mk k (.name s) c0 c1 c2 c3 sib

def TreeNode.setVal (t : TreeNode) (n : Int) : TreeNode :=
  match t with
  | .null => .null
  | .mk k _ c0 c1 c2 c3 sib => .mk k (.val n) c0 c1 c2 c3 sib

def TreeNode.setOp (t : TreeNode) (o : TokenKind) : TreeNode :=
  match t with
  | .null => .null
  | .mk k _ c0 c1 c2 c3 sib => .mk k (.op o) c0 c1 c2 c3 sib

/-- A freshly allocated node, all slots unset (what newStmtNode/newExpNode
return on success). -/
def freshNode (k : NodeKind) : TreeNode :=
  .mk k .unset .null .null .null .null .null

/-- The singleton list holding a pointer's target: empty for NULL. -/
def nodeList : TreeNode → List TreeNode
  | .null => []
  | t => [t]

/-- Materialise a sibling chain from a list of nodes: the C pattern
`root ... lst->sibling = p; lst = p` built functionally. -/
def linkSiblings : List TreeNode → TreeNode
  | [] => .null
  | t :: ts => t.setSibling (linkSiblings ts)

/-- Parser state: current lookahead kind and text, remaining token stream,
allocation oracle, the process-wide Error flag, and a count of diagnostics
emitted by syntaxError. -/
structure PState where
  token : TokenKind
  tokenString : String
  rest : List Tok
  allocs : List Bool
  err : Bool
  diags : Nat
deriving DecidableEq, Repr

/-- Outcome of running a parser fragment: normal return with a value and a
state, a null-pointer dereference, or fuel exhaustion (`out`, which the C
code has no analogue of: it marks an under-supplied fuel budget, and
would-be infinite loops never leave it). -/
inductive PResult (α : Type) where
  | ok (a : α) (s : PState)
  | crash
  | out
deriving Repr, DecidableEq

/-- The parser monad: state passing with crash and fuel-exhaustion escapes. -/
def PM (α : Type) : Type := PState → PResult α

def PM.pure {α : Type} (a : α) : PM α := fun s => .ok a s

def PM.bind {α β : Type} (m : PM α) (k : α → PM β) : PM β := fun s =>
  match m s with
  | .ok a s1 => k a s1
  | .crash => .crash
  | .out => .out

instance : Monad PM where
  pure := PM.pure
  bind := PM.bind

/-- The state after one `token = getToken()`: pop the stream, or yield
ENDFILE forever once it is exhausted.  Modelled from the spec's token-source
contract (the scanner is not part of the parser source): repeated reads past
end-of-file keep yielding the end-of-file kind. -/
def getTokenState (s : PState) : PState :=
  match s.rest with
  | [] => { s with token := .ENDFILE, tokenString := "" }
  | t :: r => { s with token := t.kind, tokenString := t.text, rest := r }

/-- `token = getToken();` -/
def getToken : PM Unit := fun s => .ok () (getTokenState s)

/-- Read the current lookahead kind (the global `token`). -/
def getTok : PM TokenKind := fun s => .ok s.token s

/-- Read the current token text (the global `tokenString`). -/
def getStr : PM String := fun s => .ok s.tokenString s

/-- syntaxError: emit one diagnostic and set the process-wide Error flag.
The message text goes to the listing and is not modelled; the diagnostic
count and the flag are. -/
def syntaxError : PM Unit := fun s =>
  .ok () { s with err := true, diags := s.diags + 1 }

/-- match(expected): advance on the expected kind, otherwise report a syntax
error and leave the lookahead unconsumed.  (`match` is a Lean keyword, hence
the name.) -/
def pmatch (expected : TokenKind) : PM Unit := do
  let t ← getTok
  if t = expected then getToken else syntaxError

/-- Pop one entry from the allocation oracle; an exhausted oracle means the
allocation succeeds. -/
def allocOk : PM Bool := fun s =>
  match s.allocs with
  | [] => .ok true s
  | b :: r => .ok b { s with allocs := r }

/-- newStmtNode(kind): a fresh node, or NULL when the oracle says the
allocation fails. -/
def newStmtNode (k : NodeKind) : PM TreeNode := do
  let ok ← allocOk
  if ok then pure (freshNode k) else pure .null

/-- newExpNode(kind): same allocation behaviour as newStmtNode. -/
def newExpNode (k : NodeKind) : PM TreeNode := do
  let ok ← allocOk
  if ok then pure (freshNode k) else pure .null

/-- `t->child[i] = v` when `t` may be NULL: dereferencing NULL crashes. -/
def derefSetChild (t : TreeNode) (i : Nat) (v : TreeNode) : PM TreeNode :=
  fun s =>
  match t with
  | .null => .crash
  | nd => .ok (nd.setChild i v) s

/-- `t->attr.name` when `t` may be NULL: dereferencing NULL crashes. -/
def derefName (t : TreeNode) : PM String := fun s =>
  match t with
  | .null => .crash
  | nd =>
    match nd with
    | .mk _ (.name str) _ _ _ _ _ => .ok str s
    | _ => .ok "" s

/-- Update the last element of a list (the node the C tail pointer `lst`
targets). -/
def setLastChildList (acc : List TreeNode) (i : Nat) (v : TreeNode) :
    List TreeNode :=
  match acc with
  | [] => []
  | [x] => [x.setChild i v]
  | x :: xs => x :: setLastChildList xs i v

/-- `lst->child[i] = v` where `lst` is the tail of the threaded chain:
crashes when the chain is empty (lst == NULL). -/
def setLastChild (acc : List TreeNode) (i : Nat) (v : TreeNode) :
    PM (List TreeNode) := fun s =>
  match acc with
  | [] => .crash
  | _ :: _ => .ok (setLastChildList acc i v) s

/-- The `if (lst == NULL) root = p; else lst->sibling = p; lst = p;` step of
dim_exp and multi_value_exp, which appends `p` even when it is NULL: the
threaded state is the chain hanging off `root` plus whether `lst` is NULL. -/
def chainPush (acc : List TreeNode) (lstNull : Bool) (p : TreeNode) :
    List TreeNode × Bool :=
  if lstNull then
    match p with
    | .null => ([], true)
    | x => ([x], false)
  else
    match p with
    | .null => (acc, true)
    | x => (acc ++ [x], false)

/-- Accumulate decimal digits, as atoi does on a digit string. -/
def atoiAux : List Char → Nat → Nat
  | [], acc => acc
  | c :: cs, acc => atoiAux cs (acc * 10 + (c.toNat - 48))

/-- C's atoi on the digit strings the scanner hands over for NUM tokens. -/
def atoi (str : String) : Int :=
  (atoiAux str.data 0 : Nat)

mutual

/-- The while loop of stmt_sequence, threading the chain hanging off `t`
(C's `p` is the last element). -/
def stmt_seq_loop : Nat → List TreeNode → PM TreeNode
  | 0, _ => fun _ => .out
  | n+1, acc => do
    let tk ← getTok
    if tk ≠ .ENDFILE ∧ tk ≠ .END ∧ tk ≠ .ELSE ∧ tk ≠ .UNTIL then do
      let tk1 ← getTok
      let _ ← if tk1 = .SEMI then pmatch .SEMI else pure ()
      let tk2 ← getTok
      if tk2 = .ENDFILE ∨ tk2 = .END ∨ tk2 = .ELSE ∨ tk2 = .UNTIL then
        pure (linkSiblings acc)
      else do
        let q ← statement n
        stmt_seq_loop n (acc ++ nodeList q)
    else pure (linkSiblings acc)

/-- stmt_sequence: first statement, then the separator/terminator loop. -/
def stmt_sequence : Nat → PM TreeNode
  | 0 => fun _ => .out
  | n+1 => do
    let t ← statement n
    stmt_seq_loop n (nodeList t)

/-- statement: single-token dispatch; END/ENDFILE yield no node; any other
unrecognised lookahead reports an error and skips exactly one token. -/
def statement : Nat → PM TreeNode
  | 0 => fun _ => .out
  | n+1 => do
    let tk ← getTok
    match tk with
    | .IF => if_stmt n
    | .REPEAT => repeat_stmt n
    | .ID => assign_stmt n
    | .READ => read_stmt n
    | .WRITE => write_stmt n
    | .FUNC => func_stmt n
    | .VAR => var_stmt n
    | .WHILE => while_stmt n
    | .FOR => for_stmt n
    | .RETURN => return_stmt n
    | .END => pure TreeNode.null
    | .ENDFILE => pure TreeNode.null
    | _ => do
      syntaxError
      getToken
      pure TreeNode.null

/-- if_stmt: `if` cond `then` seq [`else` seq] `end`. -/
def if_stmt : Nat → PM TreeNode
  | 0 => fun _ => .out
  | n+1 => do
    let t ← newStmtNode .IfK
    pmatch .IF
    let t ← match t with
      | .null => pure TreeNode.null
      | nd => do
        let e ← exp n
        pure (nd.setChild 0 e)
    pmatch .THEN
    let t ← match t with
      | .null => pure TreeNode.null
      | nd => do
        let b ← stmt_sequence n
        pure (nd.setChild 1 b)
    let tk ← getTok
    let t ← if tk = .ELSE then do
        pmatch .ELSE
        match t with
        | .null => pure TreeNode.null
        | nd => do
          let b ← stmt_sequence n
          pure (nd.setChild 2 b)
      else pure t
    pmatch .END
    pure t

/-- repeat_stmt: `repeat` seq `until` cond. -/
def repeat_stmt : Nat → PM TreeNode
  | 0 => fun _ => .out
  | n+1 => do
    let t ← newStmtNode .RepeatK
    pmatch .REPEAT
    let t ← match t with
      | .null => pure TreeNode.null
      | nd => do
        let b ← stmt_sequence n
        pure (nd.setChild 0 b)
    pmatch .UNTIL
    match t with
    | .null => pure TreeNode.null
    | nd => do
      let e ← exp n
      pure (nd.setChild 1 e)

/-- assign_stmt: identifier then `[`, `=` or `(` disambiguation.  The `[`
branch stores through `t` without a NULL check, and the `(` branch reads
`t->attr.name` without a NULL check, exactly as the C does. -/
def assign_stmt : Nat → PM TreeNode
  | 0 => fun _ => .out
  | n+1 => do
    let t ← newStmtNode .AssignK
    let tk ← getTok
    let t ← if t.isNull = false ∧ tk = .ID then do
        let str ← getStr
        pure (t.setName str)
      else pure t
    pmatch .ID
    let tk2 ← getTok
    if tk2 = .LMBRACKET then do
      let d ← dim_exp n true
      let nd ← derefSetChild t 0 d
      let tk3 ← getTok
      if tk3 = .ASSIGN then do
        let v ← value_exp n
        pure (nd.setChild 1 v)
      else pure nd
    else if tk2 = .ASSIGN then
      match t with
      | .null => pure TreeNode.null
      | nd => do
        let v ← value_exp n
        pure (nd.setChild 0 v)
    else if tk2 = .LPAREN then do
      let name ← derefName t
      call_stmt n name
    else pure t

/-- read_stmt: `read` identifier. -/
def read_stmt : Nat → PM TreeNode
  | 0 => fun _ => .out
  | n+1 => do
    let t ← newStmtNode .ReadK
    pmatch .READ
    let tk ← getTok
    let t ← if t.isNull = false ∧ tk = .ID then do
        let str ← getStr
        pure (t.setName str)
      else pure t
    pmatch .ID
    pure t

/-- write_stmt: `write` expr. -/
def write_stmt : Nat → PM TreeNode
  | 0 => fun _ => .out
  | n+1 => do
    let t ← newStmtNode .WriteK
    pmatch .WRITE
    match t with
    | .null => pure TreeNode.null
    | nd => do
      let e ← exp n
      pure (nd.setChild 0 e)

/-- exp: relational level, at most one of `<` `=` `>`. -/
def exp : Nat → PM TreeNode
  | 0 => fun _ => .out
  | n+1 => do
    let t ← simple_exp n
    let tk ← getTok
    if tk = .LT ∨ tk = .EQ ∨ tk = .GT then do
      let p ← newExpNode .OpK
      let t ← match p with
        | .null => pure t
        | pd => pure ((pd.setChild 0 t).setOp tk)
      pmatch tk
      match t with
      | .null => pure TreeNode.null
      | nd => do
        let r ← simple_exp n
        pure (nd.setChild 1 r)
    else pure t

/-- simple_exp: additive/logical level. -/
def simple_exp : Nat → PM TreeNode
  | 0 => fun _ => .out
  | n+1 => do
    let t ← term n
    simple_exp_loop n t

/-- The while loop of simple_exp: chain `+` `-` `and` left-associatively.
When allocation fails the C body does nothing and the loop spins without
consuming a token; here that drains the fuel. -/
def simple_exp_loop : Nat → TreeNode → PM TreeNode
  | 0, _ => fun _ => .out
  | n+1, t => do
    let tk ← getTok
    if tk = .PLUS ∨ tk = .MINUS ∨ tk = .AND then do
      let t ← match (← newExpNode .OpK) with
        | .null => pure t
        | pd => do
          let pd := (pd.setChild 0 t).setOp tk
          pmatch tk
          let r ← term n
          pure (pd.setChild 1 r)
      simple_exp_loop n t
    else pure t

/-- term: multiplicative level. -/
def term : Nat → PM TreeNode
  | 0 => fun _ => .out
  | n+1 => do
    let t ← factor n
    term_loop n t

/-- The while loop of term: chain `*` `/` left-associatively. -/
def term_loop : Nat → TreeNode → PM TreeNode
  | 0, _ => fun _ => .out
  | n+1, t => do
    let tk ← getTok
    if tk = .TIMES ∨ tk = .OVER then do
      let t ← match (← newExpNode .OpK) with
        | .null => pure t
        | pd => do
          let pd := (pd.setChild 0 t).setOp tk
          pmatch tk
          let r ← factor n
          pure (pd.setChild 1 r)
      term_loop n t
    else pure t

/-- factor: literal, identifier with optional index/call postfix,
parenthesised expression, or single-token-skip error.  The identifier
postfix branches store through `t` / read `t->attr.name` without NULL
checks, exactly as the C does. -/
def factor : Nat → PM TreeNode
  | 0 => fun _ => .out
  | n+1 => do
    let tk ← getTok
    match tk with
    | .NUM => do
      let t ← newExpNode .ConstK
      let tk1 ← getTok
      let t ← if t.isNull = false ∧ tk1 = .NUM then do
          let str ← getStr
          pure (t.setVal (atoi str))
        else pure t
      pmatch .NUM
      pure t
    | .ID => do
      let t ← newExpNode .IdK
      let tk1 ← getTok
      let t ← if t.isNull = false ∧ tk1 = .ID then do
          let str ← getStr
          pure (t.setName str)
        else pure t
      pmatch .ID
      let tk2 ← getTok
      if tk2 = .LMBRACKET then do
        let d ← dim_exp n true
        derefSetChild t 0 d
      else if tk2 = .LPAREN then do
        let name ← derefName t
        call_stmt n name
      else pure t
    | .LPAREN => do
      pmatch .LPAREN
      let t ← exp n
      pmatch .RPAREN
      pure t
    | _ => do
      syntaxError
      getToken
      pure TreeNode.null

/-- var_stmt: `var` declarator-list.  Stores through `t` without a NULL
check, exactly as the C does. -/
def var_stmt : Nat → PM TreeNode
  | 0 => fun _ => .out
  | n+1 => do
    let t ← newStmtNode .VarK
    pmatch .VAR
    let l ← var_list n true
    derefSetChild t 0 l

/-- var_list: comma-separated declarators. -/
def var_list : Nat → Bool → PM TreeNode
  | 0, _ => fun _ => .out
  | n+1, ed => do
    let acc ← var_list_loop n ed []
    pure (linkSiblings acc)

/-- The while loop of var_list: one declarator per iteration; initialisers
and dimensions mutate the chain's tail node (`lst`). -/
def var_list_loop : Nat → Bool → List TreeNode → PM (List TreeNode)
  | 0, _, _ => fun _ => .out
  | n+1, ed, acc => do
    let tk ← getTok
    if tk = .ID then do
      let p ← newExpNode .IdK
      let tkx ← getTok
      let acc ← if p.isNull = false ∧ tkx = .ID then do
          let str ← getStr
          pmatch .ID
          pure (acc ++ [p.setName str])
        else pure acc
      let tk2 ← getTok
      let acc ← if tk2 = .ASSIGN then do
          let v ← value_exp n
          setLastChild acc 0 v
        else if tk2 = .LMBRACKET then do
          let d ← dim_exp n ed
          let acc ← setLastChild acc 0 d
          let tk3 ← getTok
          if tk3 = .ASSIGN ∧ ed then do
            let mv ← multi_value_exp n
            setLastChild acc 1 mv
          else pure acc
        else pure acc
      let tk4 ← getTok
      if tk4 = .COMMA then do
        pmatch .COMMA
        var_list_loop n ed acc
      else pure acc
    else pure acc

/-- value_exp: `=` then a lambda or a plain expression, wrapped in a Value
node.  When allocation fails nothing at all is consumed (the whole body is
guarded by the NULL check). -/
def value_exp : Nat → PM TreeNode
  | 0 => fun _ => .out
  | n+1 => do
    let q ← newExpNode .ValueK
    match q with
    | .null => pure TreeNode.null
    | qd => do
      pmatch .ASSIGN
      let tk ← getTok
      if tk = .LAMBDA then do
        let l ← lambda_exp n
        pure (qd.setChild 0 l)
      else do
        let e ← exp n
        pure (qd.setChild 0 e)

/-- multi_value_exp: `= ( expr [, expr]* )`, each element wrapped in a Value
node and chained. -/
def multi_value_exp : Nat → PM TreeNode
  | 0 => fun _ => .out
  | n+1 => do
    pmatch .ASSIGN
    pmatch .LPAREN
    let pr ← multi_value_loop n [] true
    pmatch .RPAREN
    pure (linkSiblings pr.1)

/-- The while(1) loop of multi_value_exp; the unconditional append of a
possibly-NULL `p` is `chainPush`. -/
def multi_value_loop : Nat → List TreeNode → Bool → PM (List TreeNode × Bool)
  | 0, _, _ => fun _ => .out
  | n+1, acc, lstNull => do
    let p ← newExpNode .ValueK
    let p ← match p with
      | .null => pure TreeNode.null
      | pd => do
        let e ← exp n
        pure (pd.setChild 0 e)
    let pr := chainPush acc lstNull p
    let tk ← getTok
    if tk = .COMMA then do
      pmatch .COMMA
      multi_value_loop n pr.1 pr.2
    else pure pr

/-- dim_exp: one or more bracket groups, each one Dim node. -/
def dim_exp : Nat → Bool → PM TreeNode
  | 0, _ => fun _ => .out
  | n+1, ed => do
    let pr ← dim_exp_loop n ed [] true
    pure (linkSiblings pr.1)

/-- The while loop of dim_exp: inside a bracket, a bare identifier is taken
as the whole content; otherwise a simple_exp is parsed.  The unconditional
append of a possibly-NULL `p` is `chainPush`. -/
def dim_exp_loop : Nat → Bool → List TreeNode → Bool → PM (List TreeNode × Bool)
  | 0, _, _, _ => fun _ => .out
  | n+1, ed, acc, lstNull => do
    let tk ← getTok
    if tk = .LMBRACKET then do
      pmatch .LMBRACKET
      let p ← newExpNode .DimK
      let p ← if p.isNull = false ∧ ed then do
          let tk2 ← getTok
          if tk2 = .ID then do
            let t ← newExpNode .IdK
            let tk3 ← getTok
            let t ← if t.isNull = false ∧ tk3 = .ID then do
                let str ← getStr
                pure (t.setName str)
              else pure t
            pmatch .ID
            pure (p.setChild 0 t)
          else do
            let e ← simple_exp n
            pure (p.setChild 0 e)
        else pure p
      pmatch .RMBRACKET
      let pr := chainPush acc lstNull p
      dim_exp_loop n ed pr.1 pr.2
    else pure (acc, lstNull)

/-- while_stmt: `while` `(` cond `)` seq `end`. -/
def while_stmt : Nat → PM TreeNode
  | 0 => fun _ => .out
  | n+1 => do
    let t ← newStmtNode .WhileK
    pmatch .WHILE
    pmatch .LPAREN
    let t ← match t with
      | .null => pure TreeNode.null
      | nd => do
        let e ← exp n
        pure (nd.setChild 0 e)
    pmatch .RPAREN
    let t ← match t with
      | .null => pure TreeNode.null
      | nd => do
        let b ← stmt_sequence n
        pure (nd.setChild 1 b)
    pmatch .END
    pure t

/-- return_stmt: `return` expr. -/
def return_stmt : Nat → PM TreeNode
  | 0 => fun _ => .out
  | n+1 => do
    let t ← newStmtNode .ReturnK
    pmatch .RETURN
    match t with
    | .null => pure TreeNode.null
    | nd => do
      let e ← exp n
      pure (nd.setChild 0 e)

/-- func_stmt: `func` name params seq `end`.  Note the name/match(ID) pair is
inside the NULL check, as in the C. -/
def func_stmt : Nat → PM TreeNode
  | 0 => fun _ => .out
  | n+1 => do
    let t ← newStmtNode .FuncK
    pmatch .FUNC
    let tk ← getTok
    let t ← if t.isNull = false ∧ tk = .ID then do
        let str ← getStr
        let t2 := t.setName str
        pmatch .ID
        pure t2
      else pure t
    let t ← match t with
      | .null => pure TreeNode.null
      | nd => do
        let ps ← params n
        let nd := nd.setChild 0 ps
        let b ← stmt_sequence n
        pure (nd.setChild 1 b)
    pmatch .END
    pure t

/-- params: `(` declarator-list with explicit_dim=false `)`, wrapped in a
Params node.  Stores through `t` without a NULL check, exactly as the C
does. -/
def params : Nat → PM TreeNode
  | 0 => fun _ => .out
  | n+1 => do
    let t ← newExpNode .ParamsK
    pmatch .LPAREN
    let l ← var_list n false
    let nd ← derefSetChild t 0 l
    pmatch .RPAREN
    pure nd

/-- for_stmt: `for` `(` [`var`] decl-list `;` cond `;` assignment `)` seq
`end`. -/
def for_stmt : Nat → PM TreeNode
  | 0 => fun _ => .out
  | n+1 => do
    let t ← newStmtNode .ForK
    pmatch .FOR
    pmatch .LPAREN
    let tk ← getTok
    let _ ← if tk = .VAR then pmatch .VAR else pure ()
    let t ← match t with
      | .null => pure TreeNode.null
      | nd => do
        let l ← var_list n true
        let nd := nd.setChild 0 l
        pmatch .SEMI
        let c ← exp n
        let nd := nd.setChild 1 c
        pmatch .SEMI
        let a ← assign_stmt n
        let nd := nd.setChild 2 a
        pmatch .RPAREN
        let b ← stmt_sequence n
        pure (nd.setChild 3 b)
    pmatch .END
    pure t

/-- lambda_exp: `lambda` params `:` expr, a Func node with a synthetic
name. -/
def lambda_exp : Nat → PM TreeNode
  | 0 => fun _ => .out
  | n+1 => do
    let t ← newStmtNode .FuncK
    pmatch .LAMBDA
    match t with
    | .null => pure TreeNode.null
    | nd => do
      let nd := nd.setName "lambda"
      let ps ← params n
      let nd := nd.setChild 0 ps
      pmatch .COLON
      let e ← exp n
      pure (nd.setChild 1 e)

/-- call_stmt(name): `(` arg [, arg]* `)`; arguments chain off child 0.  The
first argument is stored through `t` without a NULL check (`t->child[0] =
p`), exactly as the C does. -/
def call_stmt : Nat → String → PM TreeNode
  | 0, _ => fun _ => .out
  | n+1, name => do
    let t ← newStmtNode .CallK
    let t ← match t with
      | .null => pure TreeNode.null
      | nd => pure (nd.setName name)
    pmatch .LPAREN
    let args ← call_args_loop n t.isNull []
    pmatch .RPAREN
    match t with
    | .null => pure TreeNode.null
    | nd => pure (nd.setChild 0 (linkSiblings args))

/-- The argument loop of call_stmt: full expressions separated by commas,
empty list permitted; non-NULL arguments are appended, and the very first
append dereferences the call node (`t->child[0] = p`), crashing when it is
NULL. -/
def call_args_loop : Nat → Bool → List TreeNode → PM (List TreeNode)
  | 0, _, _ => fun _ => .out
  | n+1, tNull, acc => do
    let tk ← getTok
    if tk ≠ .RPAREN then do
      let p ← exp n
      let acc ← match p with
        | .null => pure acc
        | pd =>
          if acc.isEmpty ∧ tNull then fun _ => .crash
          else pure (acc ++ [pd])
      let tk2 ← getTok
      if tk2 = .COMMA then do
        pmatch .COMMA
        call_args_loop n tNull acc
      else pure acc
    else pure acc

end

/-- parse: prime the lookahead, parse the top-level statement sequence,
report trailing content. -/
def parse : Nat → PM TreeNode
  | 0 => fun _ => .out
  | n+1 => do
    getToken
    let t ← stmt_sequence n
    let tk ← getTok
    let _ ← if tk ≠ .ENDFILE then syntaxError else pure ()
    pure t

/-- The initial parser state for a token stream and an allocation oracle:
lookahead not yet primed (parse's first getToken loads it; the dummy kind is
never read). -/
def mkInit (ts : List Tok) (al : List Bool) : PState :=
  { token := .ENDFILE, tokenString := "", rest := ts, allocs := al
    err := false, diags := 0 }

/-- A state whose lookahead is already primed from the head of `ts` (entry
convention of every production other than parse). -/
def startState (ts : List Tok) (al : List Bool) : PState :=
  getTokenState (mkInit ts al)

/-- A Const node as factor builds it. -/
def constN (v : Int) : TreeNode := .mk .ConstK (.val v) .null .null .null .null .null

/-- An Id node as factor builds it. -/
def idN (s : String) : TreeNode := .mk .IdK (.name s) .null .null .null .null .null

/-- An Op node as the binary levels build it: child 0 left, child 1 right. -/
def opN (o : TokenKind) (l r : TreeNode) : TreeNode := .mk .OpK (.op o) l r .null .null .null

/-- Final state with an exhausted stream, given Error flag and diagnostic
count. -/
def doneState (e : Bool) (d : Nat) : PState := ⟨.ENDFILE, "", [], [], e, d⟩

/-- A concrete primed state used by witnesses. -/
def sIf : PState := ⟨.IF, "if", [⟨.NUM, "1"⟩], [], false, 0⟩

/-- A concrete primed state on a token that starts no statement and no
factor. -/
def sColon : PState := ⟨.COLON, ":", [⟨.NUM, "7"⟩], [], false, 0⟩

/-- Token stream for the call "f(1,2)". -/
def toksCall : List Tok :=
  [⟨.ID, "f"⟩, ⟨.LPAREN, "("⟩, ⟨.NUM, "1"⟩, ⟨.COMMA, ","⟩, ⟨.NUM, "2"⟩,
    ⟨.RPAREN, ")"⟩]

/-- The Call node "f(1,2)" builds: two-element argument chain off child 0. -/
def callF12 : TreeNode :=
  .mk .CallK (.name "f") ((constN 1).setSibling (constN 2)) .null .null .null
    .null

/-- A Dim node with the given bracket content in child 0. -/
def dimN (c : TreeNode) : TreeNode := .mk .DimK .unset c .null .null .null .null

/-- Token stream for "if x then read y end". -/
def toksIfReadEnd : List Tok :=
  [⟨.IF, "if"⟩, ⟨.ID, "x"⟩, ⟨.THEN, "then"⟩, ⟨.READ, "read"⟩, ⟨.ID, "y"⟩,
    ⟨.END, "end"⟩]

/-- Token stream for "func f ( ) end". -/
def toksFuncEmpty : List Tok :=
  [⟨.FUNC, "func"⟩, ⟨.ID, "f"⟩, ⟨.LPAREN, "("⟩, ⟨.RPAREN, ")"⟩, ⟨.END, "end"⟩]


/-- Token stream continuing an additive chain: operator then NUM literal,
repeated. -/
def addOpsToks : List (TokenKind × String) → List Tok
  | [] => []
  | p :: r => ⟨p.1, ""⟩ :: ⟨.NUM, p.2⟩ :: addOpsToks r

/-- The primed state in the middle of an additive chain: lookahead is the
next operator, or ENDFILE at the end of the chain. -/
def chainState : List (TokenKind × String) → Bool → Nat → PState
  | [], e, d => ⟨.ENDFILE, "", [], [], e, d⟩
  | p :: r, e, d => ⟨p.1, "", ⟨.NUM, p.2⟩ :: addOpsToks r, [], e, d⟩

/-- The tree the additive loop builds: a left fold, with the accumulated
tree as child 0 of each new Op node and the freshly parsed term as child
1. -/
def addFold (t : TreeNode) : List (TokenKind × String) → TreeNode
  | [] => t
  | p :: r => addFold (opN p.1 t (constN (atoi p.2))) r


/-- Specification collector for stmt_sequence's loop: identical control flow,
but returning the list of non-null statement results in source order instead
of threading the sibling chain. -/
def stmt_seq_collect : Nat → PM (List TreeNode)
  | 0 => fun _ => .out
  | n+1 => do
    let tk ← getTok
    if tk ≠ .ENDFILE ∧ tk ≠ .END ∧ tk ≠ .ELSE ∧ tk ≠ .UNTIL then do
      let tk1 ← getTok
      let _ ← if tk1 = .SEMI then pmatch .SEMI else pure ()
      let tk2 ← getTok
      if tk2 = .ENDFILE ∨ tk2 = .END ∨ tk2 = .ELSE ∨ tk2 = .UNTIL then
        pure []
      else do
        let q ← statement n
        let l ← stmt_seq_collect n
        pure (nodeList q ++ l)
    else pure []

/-- Specification collector for stmt_sequence: the first statement plus the
loop's collection. -/
def stmt_sequence_collect : Nat → PM (List TreeNode)
  | 0 => fun _ => .out
  | n+1 => do
    let t ← statement n
    let l ← stmt_seq_collect n
    pure (nodeList t ++ l)

/-- The ordered list of nodes reachable along sibling links from a chain
head, each listed with its own sibling link cleared. -/
def chainElems : TreeNode → List TreeNode
  | .null => []
  | .mk k a c0 c1 c2 c3 sib => .mk k a c0 c1 c2 c3 .null :: chainElems sib


/-- Invariant for the termination argument: the allocation oracle is empty
(every allocation succeeds) and the remaining stream carries no ENDFILE
token (the scanner produces ENDFILE only at exhaustion). -/
def Inv (s : PState) : Prop :=
  s.allocs = [] ∧ ∀ t ∈ s.rest, t.kind ≠ .ENDFILE

/-- Termination measure: remaining stream length plus one for an unconsumed
non-ENDFILE lookahead.  Every successful match strictly decreases it. -/
def mu (s : PState) : Nat :=
  s.rest.length + (if s.token = .ENDFILE then 0 else 1)

/-- The state after syntaxError. -/
def errState (s : PState) : PState :=
  { s with err := true, diags := s.diags + 1 }

/-- The state after match(e): advance on a hit, diagnose on a miss. -/
def pmatchState (e : TokenKind) (s : PState) : PState :=
  if s.token = e then getTokenState s else errState s

/-- Normal termination with the invariant preserved, the measure not
increased, and — under `strict` — strictly decreased. -/
abbrev OkCond {α : Type} (m : PM α) (s : PState) (strict : Prop) : Prop :=
  ∃ r s1, m s = .ok r s1 ∧ Inv s1 ∧ mu s1 ≤ mu s ∧ (strict → mu s1 < mu s)

/-- Progress at fuel `n`: every production returns normally when given fuel
at least `10 * mu + rank`, preserving the invariant and never increasing the
measure; productions entered on their dispatch keyword consume at least one
token (strict decrease).  Proved for every `n` by strong induction. -/
structure Prog (n : Nat) : Prop where
  factor_ok : ∀ s, Inv s → 10 * mu s + 2 ≤ n → OkCond (factor n) s False
  term_loop_ok : ∀ t s, Inv s → 10 * mu s + 2 ≤ n → OkCond (term_loop n t) s False
  term_ok : ∀ s, Inv s → 10 * mu s + 3 ≤ n → OkCond (term n) s False
  simple_exp_loop_ok : ∀ t s, Inv s → 10 * mu s + 3 ≤ n →
    OkCond (simple_exp_loop n t) s False
  simple_exp_ok : ∀ s, Inv s → 10 * mu s + 4 ≤ n → OkCond (simple_exp n) s False
  exp_ok : ∀ s, Inv s → 10 * mu s + 5 ≤ n → OkCond (exp n) s False
  dim_exp_loop_ok : ∀ ed acc ln s, Inv s → 10 * mu s + 2 ≤ n →
    OkCond (dim_exp_loop n ed acc ln) s False
  dim_exp_ok : ∀ ed s, Inv s → 10 * mu s + 3 ≤ n → OkCond (dim_exp n ed) s False
  call_args_loop_ok : ∀ acc s, Inv s → 10 * mu s + 6 ≤ n →
    OkCond (call_args_loop n false acc) s False
  call_stmt_ok : ∀ name s, Inv s → s.token = .LPAREN → 10 * mu s + 2 ≤ n →
    OkCond (call_stmt n name) s True
  value_exp_ok : ∀ s, Inv s → s.token = .ASSIGN → 10 * mu s + 2 ≤ n →
    OkCond (value_exp n) s True
  lambda_exp_ok : ∀ s, Inv s → s.token = .LAMBDA → 10 * mu s + 2 ≤ n →
    OkCond (lambda_exp n) s True
  multi_value_loop_ok : ∀ acc ln s, Inv s → 10 * mu s + 6 ≤ n →
    OkCond (multi_value_loop n acc ln) s False
  multi_value_exp_ok : ∀ s, Inv s → s.token = .ASSIGN → 10 * mu s + 2 ≤ n →
    OkCond (multi_value_exp n) s True
  var_list_loop_ok : ∀ ed acc s, Inv s → 10 * mu s + 2 ≤ n →
    OkCond (var_list_loop n ed acc) s False
  var_list_ok : ∀ ed s, Inv s → 10 * mu s + 3 ≤ n → OkCond (var_list n ed) s False
  params_ok : ∀ s, Inv s → 10 * mu s + 4 ≤ n → OkCond (params n) s False
  if_stmt_ok : ∀ s, Inv s → s.token = .IF → 10 * mu s + 2 ≤ n →
    OkCond (if_stmt n) s True
  repeat_stmt_ok : ∀ s, Inv s → s.token = .REPEAT → 10 * mu s + 2 ≤ n →
    OkCond (repeat_stmt n) s True
  read_stmt_ok : ∀ s, Inv s → s.token = .READ → 10 * mu s + 2 ≤ n →
    OkCond (read_stmt n) s True
  write_stmt_ok : ∀ s, Inv s → s.token = .WRITE → 10 * mu s + 2 ≤ n →
    OkCond (write_stmt n) s True
  var_stmt_ok : ∀ s, Inv s → s.token = .VAR → 10 * mu s + 2 ≤ n →
    OkCond (var_stmt n) s True
  while_stmt_ok : ∀ s, Inv s → s.token = .WHILE → 10 * mu s + 2 ≤ n →
    OkCond (while_stmt n) s True
  for_stmt_ok : ∀ s, Inv s → s.token = .FOR → 10 * mu s + 2 ≤ n →
    OkCond (for_stmt n) s True
  return_stmt_ok : ∀ s, Inv s → s.token = .RETURN → 10 * mu s + 2 ≤ n →
    OkCond (return_stmt n) s True
  func_stmt_ok : ∀ s, Inv s → s.token = .FUNC → 10 * mu s + 2 ≤ n →
    OkCond (func_stmt n) s True
  assign_stmt_ok : ∀ s, Inv s → 10 * mu s + 5 ≤ n →
    OkCond (assign_stmt n) s (s.token = .ID)
  statement_ok : ∀ s, Inv s → 10 * mu s + 6 ≤ n →
    OkCond (statement n) s (s.token ≠ .END ∧ s.token ≠ .ENDFILE)
  stmt_seq_loop_ok : ∀ acc s, Inv s → 10 * mu s + 7 ≤ n →
    OkCond (stmt_seq_loop n acc) s False
  stmt_sequence_ok : ∀ s, Inv s → 10 * mu s + 8 ≤ n →
    OkCond (stmt_sequence n) s False

/- ===================== Theorems ===================== -/

/-- Running a bound computation: step the first part, then feed the second. -/
theorem bind_apply {α β : Type} (m : PM α) (k : α → PM β) (s : PState) :
    (m >>= k) s = match m s with
      | .ok x s1 => k x s1
      | .crash => .crash
      | .out => .out := rfl

/-- Running a pure computation. -/
theorem pure_apply {α : Type} (x : α) (s : PState) :
    (Pure.pure x : PM α) s = .ok x s := rfl

/-- Claim C1: parsing the expression "1+2*3" yields an Op(+) node whose left
child (child 0) is Const(1) and whose right child (child 1) is Op(*) with
children Const(2) and Const(3): the multiplicative level binds tighter than
the additive level. -/
theorem claim1_precedence :
    exp 30 (startState [⟨.NUM, "1"⟩, ⟨.PLUS, "+"⟩, ⟨.NUM, "2"⟩, ⟨.TIMES, "*"⟩,
        ⟨.NUM, "3"⟩] []) =
      .ok (opN .PLUS (constN 1) (opN .TIMES (constN 2) (constN 3)))
        (doneState false 0) := by
  rfl

/-- Claim C9: parsing the malformed input "write" (write then end-of-file)
sets the Error flag, emits exactly one diagnostic, and still returns a Write
node whose child 0 is unset (null), without crashing. -/
theorem claim9_write_missing_operand :
    parse 30 (mkInit [⟨.WRITE, "write"⟩] []) =
      .ok (TreeNode.mk .WriteK .unset .null .null .null .null .null)
        (doneState true 1) := by
  rfl

/-- Claim C4: for every expected kind, match advances past a matching
lookahead, and on a mismatch it reports one diagnostic, sets the Error flag,
leaves the token stream unadvanced (same lookahead, same remaining stream),
and returns normally (parsing is never halted). -/
theorem claim4_match_unconsumed (expected : TokenKind) (s : PState) :
    (s.token = expected → pmatch expected s = .ok () (getTokenState s)) ∧
    (s.token ≠ expected →
      pmatch expected s = .ok () { s with err := true, diags := s.diags + 1 }) := by
  constructor
  · intro h
    simp [pmatch, bind_apply, getTok, getToken, syntaxError, h]
  · intro h
    simp [pmatch, bind_apply, getTok, getToken, syntaxError, h]

/-- Witness for C4 at concrete states: a match on the lookahead IF advances,
and expecting END on that state reports without consuming. -/
theorem claim4_match_unconsumed_witness :
    pmatch .IF sIf = .ok () (getTokenState sIf) ∧
    pmatch .END sIf = .ok () { sIf with err := true, diags := sIf.diags + 1 } :=
  ⟨(claim4_match_unconsumed .IF sIf).1 rfl,
    (claim4_match_unconsumed .END sIf).2 (by decide)⟩

/-- Claim C5: when the lookahead begins no statement production (and is not
the no-op END/ENDFILE case), and when it begins no factor production, the
engine reports one syntax error, consumes exactly one token, and returns the
null node — the state moves by exactly one getToken step plus the
diagnostic, nothing more. -/
theorem claim5_single_token_skip (n : Nat) (s : PState) :
    (s.token ∉ ([.IF, .REPEAT, .ID, .READ, .WRITE, .FUNC, .VAR, .WHILE, .FOR,
        .RETURN, .END, .ENDFILE] : List TokenKind) →
      statement (n+1) s =
        .ok .null (getTokenState { s with err := true, diags := s.diags + 1 })) ∧
    (s.token ∉ ([.NUM, .ID, .LPAREN] : List TokenKind) →
      factor (n+1) s =
        .ok .null (getTokenState { s with err := true, diags := s.diags + 1 })) := by
  constructor
  · intro h
    cases htok : s.token <;> simp [htok] at h <;>
      simp [statement, bind_apply, pure_apply, getTok, getToken, syntaxError, htok]
  · intro h
    cases htok : s.token <;> simp [htok] at h <;>
      simp [factor, bind_apply, pure_apply, getTok, getToken, syntaxError, htok]

/-- Witness for C5 at a COLON lookahead, which starts neither a statement
nor a factor. -/
theorem claim5_single_token_skip_witness :
    statement (4+1) sColon =
      .ok .null (getTokenState { sColon with err := true, diags := sColon.diags + 1 }) ∧
    factor (4+1) sColon =
      .ok .null (getTokenState { sColon with err := true, diags := sColon.diags + 1 }) :=
  ⟨(claim5_single_token_skip 4 sColon).1 (by decide),
    (claim5_single_token_skip 4 sColon).2 (by decide)⟩

/-- Claim C8: the statement entry (assign_stmt seeing name then LPAREN) and
the factor entry into call parsing are the same function of the parser
state, so they build structurally identical Call nodes; concretely "f(1,2)"
as a statement and "write f(1,2)" as an expression both contain the same
Call node with the two-element argument chain Const(1) → Const(2). -/
theorem claim8_call_dual_entry :
    (∀ (n : Nat) (s : PState) (t : Tok) (r : List Tok),
        s.allocs = [] → s.token = .ID → s.rest = t :: r → t.kind = .LPAREN →
        statement (n+2) s = factor (n+1) s) ∧
    statement 30 (startState toksCall []) = .ok callF12 (doneState false 0) ∧
    statement 30 (startState (⟨.WRITE, "write"⟩ :: toksCall) []) =
      .ok (TreeNode.mk .WriteK .unset callF12 .null .null .null .null)
        (doneState false 0) := by
  refine ⟨?_, by rfl, by rfl⟩
  intro n s t r hal htok hrest hk
  simp [statement, factor, assign_stmt, bind_apply, pure_apply, getTok, getStr,
    newStmtNode, newExpNode, allocOk, pmatch, getToken, derefName, htok, hal,
    hrest, hk, getTokenState, freshNode, TreeNode.isNull, TreeNode.setName]

/-- Witness for C8's general part at the concrete stream "f(1,2)". -/
theorem claim8_call_dual_entry_witness :
    statement (28+2) (startState toksCall []) =
      factor (28+1) (startState toksCall []) :=
  claim8_call_dual_entry.1 28 (startState toksCall []) ⟨.LPAREN, "("⟩
    [⟨.NUM, "1"⟩, ⟨.COMMA, ","⟩, ⟨.NUM, "2"⟩, ⟨.RPAREN, ")"⟩] rfl rfl rfl rfl

/-- Counterexample to C6 as stated: not every caller of the node factory
checks for a NULL result before dereferencing.  With an oracle making the
first allocation fail, parsing "var a" crashes: var_stmt stores through the
NULL VarK node (`t->child[0] = var_list(1)` has no check). -/
theorem claim6_counterexample :
    parse 30 (mkInit [⟨.VAR, "var"⟩, ⟨.ID, "a"⟩] [false]) = .crash := by
  rfl

/-- Claim C6 as amended: the statement productions taken from the original
TINY parser (read, write, if, ...) do check the factory result before
dereferencing, so a NULL node does not crash them; but var_stmt, params, and
assign_stmt's bracket branch store through the factory result unchecked, and
a NULL result there crashes the engine. -/
theorem claim6_null_check_partial :
    parse 30 (mkInit [⟨.READ, "read"⟩, ⟨.ID, "x"⟩] [false]) =
      .ok .null (doneState false 0) ∧
    parse 30 (mkInit [⟨.WRITE, "write"⟩, ⟨.NUM, "1"⟩] [false]) ≠ .crash ∧
    parse 40 (mkInit toksIfReadEnd [false]) ≠ .crash ∧
    parse 30 (mkInit [⟨.VAR, "var"⟩, ⟨.ID, "a"⟩] [false]) = .crash ∧
    parse 40 (mkInit toksFuncEmpty [true, false]) = .crash ∧
    parse 40 (mkInit [⟨.ID, "a"⟩, ⟨.LMBRACKET, "["⟩, ⟨.NUM, "1"⟩,
        ⟨.RMBRACKET, "]"⟩] [false]) = .crash := by
  refine ⟨by rfl, by decide, by decide, by rfl, by rfl, by rfl⟩

/-- Counterexample to C7 as stated: the dimension "[i+1]" — an
additive-level expression beginning with an identifier — does not parse
without a diagnostic.  dim_exp takes the bare-identifier path on seeing the
ID, then its match(RMBRACKET) hits the PLUS and reports (Error set, one
diagnostic, bracket left half-consumed). -/
theorem claim7_counterexample :
    dim_exp 30 true (startState [⟨.LMBRACKET, "["⟩, ⟨.ID, "i"⟩, ⟨.PLUS, "+"⟩,
        ⟨.NUM, "1"⟩, ⟨.RMBRACKET, "]"⟩] []) =
      .ok (dimN (idN "i"))
        ⟨.PLUS, "+", [⟨.NUM, "1"⟩, ⟨.RMBRACKET, "]"⟩], [], true, 1⟩ := by
  rfl

/-- Claim C7 as amended: in explicit-dimension context each bracket group
contains either a bare identifier or an additive-level expression that does
not begin with an identifier, parsed into the Dim node's child 0; each
bracket yields one Dim node and multiple groups chain via sibling.  "[3]",
"[i]", "[2+i]" and "[3][4]" all parse cleanly, and "var a[3]" yields
Var(child0 = Id "a" with child0 = Dim(Const 3)). -/
theorem claim7_dim_groups :
    dim_exp 30 true (startState [⟨.LMBRACKET, "["⟩, ⟨.NUM, "3"⟩,
        ⟨.RMBRACKET, "]"⟩] []) = .ok (dimN (constN 3)) (doneState false 0) ∧
    dim_exp 30 true (startState [⟨.LMBRACKET, "["⟩, ⟨.ID, "i"⟩,
        ⟨.RMBRACKET, "]"⟩] []) = .ok (dimN (idN "i")) (doneState false 0) ∧
    dim_exp 30 true (startState [⟨.LMBRACKET, "["⟩, ⟨.NUM, "2"⟩, ⟨.PLUS, "+"⟩,
        ⟨.ID, "i"⟩, ⟨.RMBRACKET, "]"⟩] []) =
      .ok (dimN (opN .PLUS (constN 2) (idN "i"))) (doneState false 0) ∧
    dim_exp 30 true (startState [⟨.LMBRACKET, "["⟩, ⟨.NUM, "3"⟩,
        ⟨.RMBRACKET, "]"⟩, ⟨.LMBRACKET, "["⟩, ⟨.NUM, "4"⟩,
        ⟨.RMBRACKET, "]"⟩] []) =
      .ok ((dimN (constN 3)).setSibling (dimN (constN 4))) (doneState false 0) ∧
    parse 30 (mkInit [⟨.VAR, "var"⟩, ⟨.ID, "a"⟩, ⟨.LMBRACKET, "["⟩,
        ⟨.NUM, "3"⟩, ⟨.RMBRACKET, "]"⟩] []) =
      .ok (.mk .VarK .unset
            (.mk .IdK (.name "a") (dimN (constN 3)) .null .null .null .null)
            .null .null .null .null)
        (doneState false 0) := by
  refine ⟨by rfl, by rfl, by rfl, by rfl, by rfl⟩

theorem getTokenState_chain (r : List (TokenKind × String)) (p2 : String)
    (e : Bool) (d : Nat) :
    getTokenState ⟨.NUM, p2, addOpsToks r, [], e, d⟩ = chainState r e d := by
  cases r <;> rfl

theorem term_chain (n : Nat) (r : List (TokenKind × String)) (p2 : String)
    (e : Bool) (d : Nat)
    (h : ∀ q ∈ r, q.1 = .PLUS ∨ q.1 = .MINUS ∨ q.1 = .AND) :
    term (n+2) ⟨.NUM, p2, addOpsToks r, [], e, d⟩ =
      .ok (constN (atoi p2)) (chainState r e d) := by
  have hf : factor (n+1) ⟨.NUM, p2, addOpsToks r, [], e, d⟩ =
      .ok (constN (atoi p2)) (chainState r e d) := by
    simp [factor, bind_apply, pure_apply, getTok, getStr, newExpNode, allocOk,
      pmatch, getToken, freshNode, TreeNode.isNull, TreeNode.setVal, constN,
      getTokenState_chain]
  simp only [term, bind_apply, hf]
  cases r with
  | nil => rfl
  | cons q r2 =>
    have hq := h q (by simp)
    rcases hq with hq | hq | hq <;>
      simp [term_loop, bind_apply, pure_apply, getTok, chainState, hq]

theorem simple_exp_loop_fold (l : List (TokenKind × String)) (t : TreeNode)
    (e : Bool) (d : Nat)
    (h : ∀ p ∈ l, p.1 = .PLUS ∨ p.1 = .MINUS ∨ p.1 = .AND) :
    simple_exp_loop (l.length + 3) t (chainState l e d) =
      .ok (addFold t l) (doneState e d) := by
  induction l generalizing t with
  | nil => rfl
  | cons p r ih =>
    have hp := h p (by simp)
    have hr : ∀ q ∈ r, q.1 = .PLUS ∨ q.1 = .MINUS ∨ q.1 = .AND := by
      intro q hq; exact h q (by simp [hq])
    have htc : term (r.length + 3) ⟨.NUM, p.2, addOpsToks r, [], e, d⟩ =
        .ok (constN (atoi p.2)) (chainState r e d) := by
      have h3 : r.length + 1 + 2 = r.length + 3 := by omega
      have ht := term_chain (r.length + 1) r p.2 e d hr
      rw [h3] at ht
      exact ht
    show simple_exp_loop (r.length + 3 + 1) t (chainState (p :: r) e d) =
      .ok (addFold t (p :: r)) (doneState e d)
    have hcs : chainState (p :: r) e d =
        ⟨p.1, "", ⟨.NUM, p.2⟩ :: addOpsToks r, [], e, d⟩ := rfl
    rcases hp with hp | hp | hp
    · have hih := ih (.mk .OpK (.op .PLUS) t (constN (atoi p.2)) .null .null .null) hr
      rw [hcs, simple_exp_loop]
      simp [bind_apply, pure_apply, getTok, newExpNode,
        allocOk, pmatch, getToken, getTokenState, hp, freshNode,
        TreeNode.setChild, TreeNode.setOp, addFold, opN, htc, hih]
    · have hih := ih (.mk .OpK (.op .MINUS) t (constN (atoi p.2)) .null .null .null) hr
      rw [hcs, simple_exp_loop]
      simp [bind_apply, pure_apply, getTok, newExpNode,
        allocOk, pmatch, getToken, getTokenState, hp, freshNode,
        TreeNode.setChild, TreeNode.setOp, addFold, opN, htc, hih]
    · have hih := ih (.mk .OpK (.op .AND) t (constN (atoi p.2)) .null .null .null) hr
      rw [hcs, simple_exp_loop]
      simp [bind_apply, pure_apply, getTok, newExpNode,
        allocOk, pmatch, getToken, getTokenState, hp, freshNode,
        TreeNode.setChild, TreeNode.setOp, addFold, opN, htc, hih]

/-- Claim C2: the additive/logical level is left-associative: over any chain
of integer terms joined by PLUS, MINUS or AND, simple_exp builds the left
fold in which each new Op node takes the previously accumulated tree as
child 0 and the freshly parsed term as child 1 (`addFold`). -/
theorem claim2_left_assoc (first : String) (l : List (TokenKind × String))
    (h : ∀ p ∈ l, p.1 = .PLUS ∨ p.1 = .MINUS ∨ p.1 = .AND) :
    simple_exp (l.length + 3 + 1)
        (startState (⟨.NUM, first⟩ :: addOpsToks l) []) =
      .ok (addFold (constN (atoi first)) l) (doneState false 0) := by
  have htc3 : term (l.length + 3) ⟨.NUM, first, addOpsToks l, [], false, 0⟩ =
      .ok (constN (atoi first)) (chainState l false 0) := by
    have h3 : l.length + 1 + 2 = l.length + 3 := by omega
    have hterm := term_chain (l.length + 1) l first false 0 h
    rw [h3] at hterm
    exact hterm
  have hloop := simple_exp_loop_fold l (constN (atoi first)) false 0 h
  rw [show startState (⟨.NUM, first⟩ :: addOpsToks l) ([] : List Bool) =
      ⟨.NUM, first, addOpsToks l, [], false, 0⟩ from rfl]
  simp only [simple_exp, bind_apply, htc3, hloop]

/-- Witness for C2 at "1-2-3": the fold is Op(-, Op(-, Const 1, Const 2),
Const 3). -/
theorem claim2_left_assoc_witness :
    (∀ p ∈ ([(.MINUS, "2"), (.MINUS, "3")] : List (TokenKind × String)),
        p.1 = .PLUS ∨ p.1 = .MINUS ∨ p.1 = .AND) ∧
    simple_exp 6 (startState [⟨.NUM, "1"⟩, ⟨.MINUS, ""⟩, ⟨.NUM, "2"⟩,
        ⟨.MINUS, ""⟩, ⟨.NUM, "3"⟩] []) =
      .ok (opN .MINUS (opN .MINUS (constN 1) (constN 2)) (constN 3))
        (doneState false 0) :=
  ⟨by decide, claim2_left_assoc "1" [(.MINUS, "2"), (.MINUS, "3")] (by decide)⟩

theorem chainElems_link (l : List TreeNode) (h : ∀ t ∈ l, t.isNull = false) :
    chainElems (linkSiblings l) = l.map (fun t => t.setSibling .null) := by
  induction l with
  | nil => rfl
  | cons x xs ih =>
    have hx := h x (by simp)
    have hxs : ∀ t ∈ xs, t.isNull = false := fun t ht => h t (by simp [ht])
    cases x with
    | null => simp [TreeNode.isNull] at hx
    | mk k a c0 c1 c2 c3 sib =>
      simp [linkSiblings, TreeNode.setSibling, chainElems, ih hxs]

theorem nodeList_nonnull (t : TreeNode) : ∀ x ∈ nodeList t, x.isNull = false := by
  cases t <;> simp [nodeList, TreeNode.isNull]

theorem stmt_seq_loop_collect (n : Nat) :
    ∀ (acc : List TreeNode) (s : PState),
    stmt_seq_loop n acc s =
      match stmt_seq_collect n s with
      | .ok l s1 => .ok (linkSiblings (acc ++ l)) s1
      | .crash => .crash
      | .out => .out := by
  induction n with
  | zero => intro acc s; rfl
  | succ n ih =>
    intro acc s
    by_cases hterm : s.token ≠ .ENDFILE ∧ s.token ≠ .END ∧ s.token ≠ .ELSE ∧
        s.token ≠ .UNTIL
    · by_cases hsemi : s.token = .SEMI
      · by_cases hterm2 : (getTokenState s).token = .ENDFILE ∨
            (getTokenState s).token = .END ∨ (getTokenState s).token = .ELSE ∨
            (getTokenState s).token = .UNTIL
        · simp [stmt_seq_loop, stmt_seq_collect, bind_apply, pure_apply,
            getTok, pmatch, getToken, hterm, hsemi, hterm2]
        · cases hst : statement n (getTokenState s) with
          | ok q s3 =>
            have hstep : stmt_seq_loop (n+1) acc s =
                stmt_seq_loop n (acc ++ nodeList q) s3 := by
              simp [stmt_seq_loop, bind_apply, pure_apply, getTok, pmatch,
                getToken, hterm, hsemi, hterm2, hst]
            cases hcl : stmt_seq_collect n s3 with
            | ok l2 s4 =>
              have hcol : stmt_seq_collect (n+1) s = .ok (nodeList q ++ l2) s4 := by
                simp [stmt_seq_collect, bind_apply, pure_apply, getTok, pmatch,
                  getToken, hterm, hsemi, hterm2, hst, hcl]
              rw [hstep, ih, hcl, hcol]
              simp [List.append_assoc]
            | crash =>
              have hcol : stmt_seq_collect (n+1) s = .crash := by
                simp [stmt_seq_collect, bind_apply, pure_apply, getTok, pmatch,
                  getToken, hterm, hsemi, hterm2, hst, hcl]
              rw [hstep, ih, hcl, hcol]
            | out =>
              have hcol : stmt_seq_collect (n+1) s = .out := by
                simp [stmt_seq_collect, bind_apply, pure_apply, getTok, pmatch,
                  getToken, hterm, hsemi, hterm2, hst, hcl]
              rw [hstep, ih, hcl, hcol]
          | crash =>
            have hstep : stmt_seq_loop (n+1) acc s = .crash := by
              simp [stmt_seq_loop, bind_apply, pure_apply, getTok, pmatch,
                getToken, hterm, hsemi, hterm2, hst]
            have hcol : stmt_seq_collect (n+1) s = .crash := by
              simp [stmt_seq_collect, bind_apply, pure_apply, getTok, pmatch,
                getToken, hterm, hsemi, hterm2, hst]
            rw [hstep, hcol]
          | out =>
            have hstep : stmt_seq_loop (n+1) acc s = .out := by
              simp [stmt_seq_loop, bind_apply, pure_apply, getTok, pmatch,
                getToken, hterm, hsemi, hterm2, hst]
            have hcol : stmt_seq_collect (n+1) s = .out := by
              simp [stmt_seq_collect, bind_apply, pure_apply, getTok, pmatch,
                getToken, hterm, hsemi, hterm2, hst]
            rw [hstep, hcol]
      · by_cases hterm2 : s.token = .ENDFILE ∨ s.token = .END ∨
            s.token = .ELSE ∨ s.token = .UNTIL
        · tauto
        · cases hst : statement n s with
          | ok q s3 =>
            have hstep : stmt_seq_loop (n+1) acc s =
                stmt_seq_loop n (acc ++ nodeList q) s3 := by
              simp [stmt_seq_loop, bind_apply, pure_apply, getTok, pmatch,
                getToken, hterm, hsemi, hterm2, hst]
            cases hcl : stmt_seq_collect n s3 with
            | ok l2 s4 =>
              have hcol : stmt_seq_collect (n+1) s = .ok (nodeList q ++ l2) s4 := by
                simp [stmt_seq_collect, bind_apply, pure_apply, getTok, pmatch,
                  getToken, hterm, hsemi, hterm2, hst, hcl]
              rw [hstep, ih, hcl, hcol]
              simp [List.append_assoc]
            | crash =>
              have hcol : stmt_seq_collect (n+1) s = .crash := by
                simp [stmt_seq_collect, bind_apply, pure_apply, getTok, pmatch,
                  getToken, hterm, hsemi, hterm2, hst, hcl]
              rw [hstep, ih, hcl, hcol]
            | out =>
              have hcol : stmt_seq_collect (n+1) s = .out := by
                simp [stmt_seq_collect, bind_apply, pure_apply, getTok, pmatch,
                  getToken, hterm, hsemi, hterm2, hst, hcl]
              rw [hstep, ih, hcl, hcol]
          | crash =>
            have hstep : stmt_seq_loop (n+1) acc s = .crash := by
              simp [stmt_seq_loop, bind_apply, pure_apply, getTok, pmatch,
                getToken, hterm, hsemi, hterm2, hst]
            have hcol : stmt_seq_collect (n+1) s = .crash := by
              simp [stmt_seq_collect, bind_apply, pure_apply, getTok, pmatch,
                getToken, hterm, hsemi, hterm2, hst]
            rw [hstep, hcol]
          | out =>
            have hstep : stmt_seq_loop (n+1) acc s = .out := by
              simp [stmt_seq_loop, bind_apply, pure_apply, getTok, pmatch,
                getToken, hterm, hsemi, hterm2, hst]
            have hcol : stmt_seq_collect (n+1) s = .out := by
              simp [stmt_seq_collect, bind_apply, pure_apply, getTok, pmatch,
                getToken, hterm, hsemi, hterm2, hst]
            rw [hstep, hcol]
    · simp [stmt_seq_loop, stmt_seq_collect, bind_apply, pure_apply, getTok,
        hterm]

theorem stmt_seq_collect_term (n : Nat) :
    ∀ (s : PState) (l : List TreeNode) (s1 : PState),
    stmt_seq_collect n s = .ok l s1 →
      s1.token = .ENDFILE ∨ s1.token = .END ∨ s1.token = .ELSE ∨
        s1.token = .UNTIL := by
  induction n with
  | zero => intro s l s1 h; exact absurd h (by simp [stmt_seq_collect])
  | succ n ih =>
    intro s l s1 h
    by_cases hterm : s.token ≠ .ENDFILE ∧ s.token ≠ .END ∧ s.token ≠ .ELSE ∧
        s.token ≠ .UNTIL
    · by_cases hsemi : s.token = .SEMI
      · by_cases hterm2 : (getTokenState s).token = .ENDFILE ∨
            (getTokenState s).token = .END ∨ (getTokenState s).token = .ELSE ∨
            (getTokenState s).token = .UNTIL
        · simp [stmt_seq_collect, bind_apply, pure_apply, getTok, pmatch, getToken, hterm, hsemi, hterm2] at h
          obtain ⟨hl, hs⟩ := h
          rw [← hs]
          tauto
        ·
          cases hst : statement n (getTokenState s) with
          | ok q s3 =>
            cases hcl : stmt_seq_collect n s3 with
            | ok l2 s4 =>
              simp [stmt_seq_collect, bind_apply, pure_apply, getTok, pmatch, getToken, hterm, hsemi, hterm2, hst, hcl] at h
              obtain ⟨hl, hs⟩ := h
              exact hs ▸ ih _ _ _ hcl
            | crash => simp [stmt_seq_collect, bind_apply, pure_apply, getTok, pmatch, getToken, hterm, hsemi, hterm2, hst, hcl] at h
            | out => simp [stmt_seq_collect, bind_apply, pure_apply, getTok, pmatch, getToken, hterm, hsemi, hterm2, hst, hcl] at h
          | crash => simp [stmt_seq_collect, bind_apply, pure_apply, getTok, pmatch, getToken, hterm, hsemi, hterm2, hst] at h
          | out => simp [stmt_seq_collect, bind_apply, pure_apply, getTok, pmatch, getToken, hterm, hsemi, hterm2, hst] at h
      · by_cases hterm2 : s.token = .ENDFILE ∨ s.token = .END ∨
            s.token = .ELSE ∨ s.token = .UNTIL
        · tauto
        ·
          cases hst : statement n (s) with
          | ok q s3 =>
            cases hcl : stmt_seq_collect n s3 with
            | ok l2 s4 =>
              simp [stmt_seq_collect, bind_apply, pure_apply, getTok, pmatch, getToken, hterm, hsemi, hterm2, hst, hcl] at h
              obtain ⟨hl, hs⟩ := h
              exact hs ▸ ih _ _ _ hcl
            | crash => simp [stmt_seq_collect, bind_apply, pure_apply, getTok, pmatch, getToken, hterm, hsemi, hterm2, hst, hcl] at h
            | out => simp [stmt_seq_collect, bind_apply, pure_apply, getTok, pmatch, getToken, hterm, hsemi, hterm2, hst, hcl] at h
          | crash => simp [stmt_seq_collect, bind_apply, pure_apply, getTok, pmatch, getToken, hterm, hsemi, hterm2, hst] at h
          | out => simp [stmt_seq_collect, bind_apply, pure_apply, getTok, pmatch, getToken, hterm, hsemi, hterm2, hst] at h
    · simp [stmt_seq_collect, bind_apply, pure_apply, getTok, hterm] at h
      obtain ⟨hl, hs⟩ := h
      rw [← hs]
      tauto

theorem stmt_seq_collect_nonnull (n : Nat) :
    ∀ (s : PState) (l : List TreeNode) (s1 : PState),
    stmt_seq_collect n s = .ok l s1 → ∀ t ∈ l, t.isNull = false := by
  induction n with
  | zero => intro s l s1 h; exact absurd h (by simp [stmt_seq_collect])
  | succ n ih =>
    intro s l s1 h
    by_cases hterm : s.token ≠ .ENDFILE ∧ s.token ≠ .END ∧ s.token ≠ .ELSE ∧
        s.token ≠ .UNTIL
    · by_cases hsemi : s.token = .SEMI
      · by_cases hterm2 : (getTokenState s).token = .ENDFILE ∨
            (getTokenState s).token = .END ∨ (getTokenState s).token = .ELSE ∨
            (getTokenState s).token = .UNTIL
        · simp [stmt_seq_collect, bind_apply, pure_apply, getTok, pmatch, getToken, hterm, hsemi, hterm2] at h
          obtain ⟨hl, hs⟩ := h
          simp [hl]
        ·
          cases hst : statement n (getTokenState s) with
          | ok q s3 =>
            cases hcl : stmt_seq_collect n s3 with
            | ok l2 s4 =>
              simp [stmt_seq_collect, bind_apply, pure_apply, getTok, pmatch, getToken, hterm, hsemi, hterm2, hst, hcl] at h
              obtain ⟨hl, hs⟩ := h
              intro t ht
              rw [← hl] at ht
              rcases List.mem_append.mp ht with ht | ht
              · exact nodeList_nonnull q t ht
              · exact ih _ _ _ hcl t ht
            | crash => simp [stmt_seq_collect, bind_apply, pure_apply, getTok, pmatch, getToken, hterm, hsemi, hterm2, hst, hcl] at h
            | out => simp [stmt_seq_collect, bind_apply, pure_apply, getTok, pmatch, getToken, hterm, hsemi, hterm2, hst, hcl] at h
          | crash => simp [stmt_seq_collect, bind_apply, pure_apply, getTok, pmatch, getToken, hterm, hsemi, hterm2, hst] at h
          | out => simp [stmt_seq_collect, bind_apply, pure_apply, getTok, pmatch, getToken, hterm, hsemi, hterm2, hst] at h
      · by_cases hterm2 : s.token = .ENDFILE ∨ s.token = .END ∨
            s.token = .ELSE ∨ s.token = .UNTIL
        · tauto
        ·
          cases hst : statement n (s) with
          | ok q s3 =>
            cases hcl : stmt_seq_collect n s3 with
            | ok l2 s4 =>
              simp [stmt_seq_collect, bind_apply, pure_apply, getTok, pmatch, getToken, hterm, hsemi, hterm2, hst, hcl] at h
              obtain ⟨hl, hs⟩ := h
              intro t ht
              rw [← hl] at ht
              rcases List.mem_append.mp ht with ht | ht
              · exact nodeList_nonnull q t ht
              · exact ih _ _ _ hcl t ht
            | crash => simp [stmt_seq_collect, bind_apply, pure_apply, getTok, pmatch, getToken, hterm, hsemi, hterm2, hst, hcl] at h
            | out => simp [stmt_seq_collect, bind_apply, pure_apply, getTok, pmatch, getToken, hterm, hsemi, hterm2, hst, hcl] at h
          | crash => simp [stmt_seq_collect, bind_apply, pure_apply, getTok, pmatch, getToken, hterm, hsemi, hterm2, hst] at h
          | out => simp [stmt_seq_collect, bind_apply, pure_apply, getTok, pmatch, getToken, hterm, hsemi, hterm2, hst] at h
    · simp [stmt_seq_collect, bind_apply, pure_apply, getTok, hterm] at h
      obtain ⟨hl, hs⟩ := h
      simp [hl]

theorem stmt_sequence_collect_link (n : Nat) (s : PState) :
    stmt_sequence n s =
      match stmt_sequence_collect n s with
      | .ok l s1 => .ok (linkSiblings l) s1
      | .crash => .crash
      | .out => .out := by
  cases n with
  | zero => rfl
  | succ n =>
    cases hst : statement n s with
    | ok t s2 =>
      have hstep : stmt_sequence (n+1) s = stmt_seq_loop n (nodeList t) s2 := by
        simp [stmt_sequence, bind_apply, hst]
      cases hcl : stmt_seq_collect n s2 with
      | ok l2 s3 =>
        have hcol : stmt_sequence_collect (n+1) s = .ok (nodeList t ++ l2) s3 := by
          simp [stmt_sequence_collect, bind_apply, pure_apply, hst, hcl]
        rw [hstep, stmt_seq_loop_collect, hcl, hcol]
      | crash =>
        have hcol : stmt_sequence_collect (n+1) s = .crash := by
          simp [stmt_sequence_collect, bind_apply, pure_apply, hst, hcl]
        rw [hstep, stmt_seq_loop_collect, hcl, hcol]
      | out =>
        have hcol : stmt_sequence_collect (n+1) s = .out := by
          simp [stmt_sequence_collect, bind_apply, pure_apply, hst, hcl]
        rw [hstep, stmt_seq_loop_collect, hcl, hcol]
    | crash =>
      have hstep : stmt_sequence (n+1) s = .crash := by
        simp [stmt_sequence, bind_apply, hst]
      have hcol : stmt_sequence_collect (n+1) s = .crash := by
        simp [stmt_sequence_collect, bind_apply, pure_apply, hst]
      rw [hstep, hcol]
    | out =>
      have hstep : stmt_sequence (n+1) s = .out := by
        simp [stmt_sequence, bind_apply, hst]
      have hcol : stmt_sequence_collect (n+1) s = .out := by
        simp [stmt_sequence_collect, bind_apply, pure_apply, hst]
      rw [hstep, hcol]

theorem stmt_sequence_collect_term (n : Nat) :
    ∀ (s : PState) (l : List TreeNode) (s1 : PState),
    stmt_sequence_collect n s = .ok l s1 →
      s1.token = .ENDFILE ∨ s1.token = .END ∨ s1.token = .ELSE ∨
        s1.token = .UNTIL := by
  cases n with
  | zero => intro s l s1 h; exact absurd h (by simp [stmt_sequence_collect])
  | succ n =>
    intro s l s1 h
    cases hst : statement n s with
    | ok t s2 =>
      cases hcl : stmt_seq_collect n s2 with
      | ok l2 s3 =>
        simp [stmt_sequence_collect, bind_apply, pure_apply, hst, hcl] at h
        obtain ⟨hl, hs⟩ := h
        subst hs
        exact stmt_seq_collect_term n _ _ _ hcl
      | crash => simp [stmt_sequence_collect, bind_apply, pure_apply, hst, hcl] at h
      | out => simp [stmt_sequence_collect, bind_apply, pure_apply, hst, hcl] at h
    | crash => simp [stmt_sequence_collect, bind_apply, pure_apply, hst] at h
    | out => simp [stmt_sequence_collect, bind_apply, pure_apply, hst] at h

theorem stmt_sequence_collect_nonnull (n : Nat) :
    ∀ (s : PState) (l : List TreeNode) (s1 : PState),
    stmt_sequence_collect n s = .ok l s1 → ∀ t ∈ l, t.isNull = false := by
  cases n with
  | zero => intro s l s1 h; exact absurd h (by simp [stmt_sequence_collect])
  | succ n =>
    intro s l s1 h
    cases hst : statement n s with
    | ok t s2 =>
      cases hcl : stmt_seq_collect n s2 with
      | ok l2 s3 =>
        simp [stmt_sequence_collect, bind_apply, pure_apply, hst, hcl] at h
        obtain ⟨hl, hs⟩ := h
        intro x hx
        rw [← hl] at hx
        rcases List.mem_append.mp hx with hx | hx
        · exact nodeList_nonnull t x hx
        · exact stmt_seq_collect_nonnull n _ _ _ hcl x hx
      | crash => simp [stmt_sequence_collect, bind_apply, pure_apply, hst, hcl] at h
      | out => simp [stmt_sequence_collect, bind_apply, pure_apply, hst, hcl] at h
    | crash => simp [stmt_sequence_collect, bind_apply, pure_apply, hst] at h
    | out => simp [stmt_sequence_collect, bind_apply, pure_apply, hst] at h

/-- Claim C3: whenever stmt_sequence returns, the unconsumed lookahead is
end-of-file, END, ELSE or UNTIL; the returned tree is the sibling chain of
exactly the non-null statement results in left-to-right source order (the
collector `stmt_sequence_collect`), each element linked exactly once; and a
separator immediately before a terminator is tolerated: "repeat read x ;
until x" parses with no diagnostic. -/
theorem claim3_stmt_sequence :
    (∀ (n : Nat) (s : PState) (r : TreeNode) (s1 : PState),
        stmt_sequence n s = .ok r s1 →
        (s1.token = .ENDFILE ∨ s1.token = .END ∨ s1.token = .ELSE ∨
            s1.token = .UNTIL) ∧
        ∃ l, stmt_sequence_collect n s = .ok l s1 ∧ r = linkSiblings l ∧
          chainElems r = l.map (fun t => t.setSibling .null)) ∧
    parse 40 (mkInit [⟨.REPEAT, "repeat"⟩, ⟨.READ, "read"⟩, ⟨.ID, "x"⟩,
        ⟨.SEMI, ";"⟩, ⟨.UNTIL, "until"⟩, ⟨.ID, "x"⟩] []) =
      .ok (.mk .RepeatK .unset
            (.mk .ReadK (.name "x") .null .null .null .null .null)
            (idN "x") .null .null .null) (doneState false 0) := by
  constructor
  · intro n s r s1 h
    have hc := stmt_sequence_collect_link n s
    rw [h] at hc
    cases hcl : stmt_sequence_collect n s with
    | ok l s2 =>
      rw [hcl] at hc
      cases hc
      exact ⟨stmt_sequence_collect_term n s l _ hcl, l, rfl, rfl,
        chainElems_link l (stmt_sequence_collect_nonnull n s l _ hcl)⟩
    | crash => rw [hcl] at hc; cases hc
    | out => rw [hcl] at hc; cases hc
  · rfl

/-- Witness for C3's general part at "read x ; end": the final lookahead is
END and the chain is the singleton Read node. -/
theorem claim3_stmt_sequence_witness :
    ((⟨.END, "end", [], [], false, 0⟩ : PState).token = .ENDFILE ∨
      (⟨.END, "end", [], [], false, 0⟩ : PState).token = .END ∨
      (⟨.END, "end", [], [], false, 0⟩ : PState).token = .ELSE ∨
      (⟨.END, "end", [], [], false, 0⟩ : PState).token = .UNTIL) ∧
    ∃ l, stmt_sequence_collect 20 (startState [⟨.READ, "read"⟩, ⟨.ID, "x"⟩,
        ⟨.SEMI, ";"⟩, ⟨.END, "end"⟩] []) =
      .ok l ⟨.END, "end", [], [], false, 0⟩ ∧
      (.mk .ReadK (.name "x") .null .null .null .null .null : TreeNode) =
        linkSiblings l ∧
      chainElems (.mk .ReadK (.name "x") .null .null .null .null .null) =
        l.map (fun t => t.setSibling .null) :=
  claim3_stmt_sequence.1 20
    (startState [⟨.READ, "read"⟩, ⟨.ID, "x"⟩, ⟨.SEMI, ";"⟩, ⟨.END, "end"⟩] [])
    (.mk .ReadK (.name "x") .null .null .null .null .null)
    ⟨.END, "end", [], [], false, 0⟩ (by rfl)

theorem mu_getTokenState_le (s : PState) : mu (getTokenState s) ≤ mu s := by
  cases hr : s.rest with
  | nil => simp [mu, getTokenState, hr]
  | cons t r => simp [mu, getTokenState, hr]; split <;> split <;> omega

theorem mu_getTokenState_lt (s : PState) (h : s.token ≠ .ENDFILE) :
    mu (getTokenState s) < mu s := by
  cases hr : s.rest with
  | nil => simp [mu, getTokenState, hr, h]
  | cons t r => simp [mu, getTokenState, hr, h]; split <;> omega

theorem inv_getTokenState (s : PState) (h : Inv s) : Inv (getTokenState s) := by
  obtain ⟨h1, h2⟩ := h
  cases hr : s.rest with
  | nil => exact ⟨by simp [getTokenState, hr, h1], by simp [getTokenState, hr]⟩
  | cons t r =>
    refine ⟨by simp [getTokenState, hr, h1], ?_⟩
    intro x hx
    exact h2 x (by simp [getTokenState, hr] at hx; simp [hr, hx])

theorem inv_errState (s : PState) (h : Inv s) : Inv (errState s) := h

theorem mu_errState (s : PState) : mu (errState s) = mu s := rfl

theorem allocs_getTokenState (s : PState) :
    (getTokenState s).allocs = s.allocs := by
  cases hr : s.rest <;> simp [getTokenState, hr]

theorem pmatch_run (e : TokenKind) (s : PState) :
    pmatch e s = .ok () (pmatchState e s) := by
  by_cases h : s.token = e <;>
    simp [pmatch, bind_apply, getTok, getToken, syntaxError, pmatchState,
      errState, h]

theorem inv_pmatchState (e : TokenKind) (s : PState) (h : Inv s) :
    Inv (pmatchState e s) := by
  by_cases ht : s.token = e <;> simp [pmatchState, ht]
  · exact inv_getTokenState s h
  · exact h

theorem mu_pmatchState_le (e : TokenKind) (s : PState) :
    mu (pmatchState e s) ≤ mu s := by
  by_cases ht : s.token = e
  · simp [pmatchState, ht]
    exact mu_getTokenState_le s
  · simp [pmatchState, ht]
    exact le_of_eq (mu_errState s)

theorem mu_pmatchState_lt (e : TokenKind) (s : PState) (h : s.token = e)
    (h2 : e ≠ .ENDFILE) : mu (pmatchState e s) < mu s := by
  simp [pmatchState, h]
  exact mu_getTokenState_lt s (by rw [h]; exact h2)

theorem pmatchState_pos (e : TokenKind) (s : PState) (h : s.token = e) :
    pmatchState e s = getTokenState s := by
  simp [pmatchState, h]

theorem pmatchState_neg (e : TokenKind) (s : PState) (h : s.token ≠ e) :
    pmatchState e s = errState s := by
  simp [pmatchState, h]

theorem allocs_pmatchState (e : TokenKind) (s : PState) :
    (pmatchState e s).allocs = s.allocs := by
  by_cases ht : s.token = e <;>
    simp [pmatchState, ht, errState, allocs_getTokenState]

theorem newStmtNode_run (k : NodeKind) (s : PState) (h : s.allocs = []) :
    newStmtNode k s = .ok (freshNode k) s := by
  simp [newStmtNode, bind_apply, allocOk, h, pure_apply]

theorem newExpNode_run (k : NodeKind) (s : PState) (h : s.allocs = []) :
    newExpNode k s = .ok (freshNode k) s := by
  simp [newExpNode, bind_apply, allocOk, h, pure_apply]

theorem freshNode_isNull (k : NodeKind) : (freshNode k).isNull = false := rfl

theorem setLastChild_append (acc : List TreeNode) (x : TreeNode) (i : Nat)
    (v : TreeNode) (s : PState) :
    setLastChild (acc ++ [x]) i v s =
      .ok (setLastChildList (acc ++ [x]) i v) s := by
  cases acc <;> rfl

theorem setLastChild_run (acc : List TreeNode) (i : Nat) (v : TreeNode)
    (s : PState) (h : acc ≠ []) :
    setLastChild acc i v s = .ok (setLastChildList acc i v) s := by
  cases acc with
  | nil => exact absurd rfl h
  | cons a r => rfl

theorem setLastChildList_ne_nil (acc : List TreeNode) (i : Nat) (v : TreeNode)
    (h : acc ≠ []) : setLastChildList acc i v ≠ [] := by
  cases acc with
  | nil => exact absurd rfl h
  | cons a r => cases r <;> simp [setLastChildList]

theorem factor_progress (n : Nat) (ih : ∀ m, m < n → Prog m) :
    ∀ s, Inv s → 10 * mu s + 2 ≤ n → OkCond (factor n) s False := by
  intro s hInv hn
  obtain ⟨m, rfl⟩ : ∃ m, n = m + 1 := ⟨n - 1, by omega⟩
  have hP : Prog m := ih m (by omega)
  cases htok : s.token
  case NUM =>
    have hlt : mu (getTokenState s) < mu s := mu_getTokenState_lt s (by simp [htok])
    refine ⟨(freshNode .ConstK).setVal (atoi s.tokenString), getTokenState s, ?_,
      inv_getTokenState s hInv, le_of_lt hlt, False.elim⟩
    simp [factor, bind_apply, pure_apply, getTok, getStr, htok,
      newExpNode_run _ _ hInv.1, pmatch_run, pmatchState_pos _ _ htok,
      freshNode, TreeNode.isNull]
  case ID =>
    have hI1 : Inv (getTokenState s) := inv_getTokenState s hInv
    have hm1 : mu (getTokenState s) < mu s := mu_getTokenState_lt s (by simp [htok])
    by_cases h2 : (getTokenState s).token = .LMBRACKET
    · obtain ⟨d, s2, hdim, hI2, hm2, _⟩ :=
        hP.dim_exp_ok true (getTokenState s) hI1 (by omega)
      refine ⟨((freshNode .IdK).setName s.tokenString).setChild 0 d, s2, ?_,
        hI2, by omega, False.elim⟩
      simp [factor, bind_apply, pure_apply, getTok, getStr, htok,
        newExpNode_run _ _ hInv.1, pmatch_run, pmatchState_pos _ _ htok,
        freshNode, TreeNode.isNull, h2, hdim, derefSetChild, TreeNode.setName]
    · by_cases h3 : (getTokenState s).token = .LPAREN
      · obtain ⟨rc, s2, hcall, hI2, hm2, _⟩ :=
          hP.call_stmt_ok s.tokenString (getTokenState s) hI1 h3 (by omega)
        refine ⟨rc, s2, ?_, hI2, by omega, False.elim⟩
        simp [factor, bind_apply, pure_apply, getTok, getStr, htok,
          newExpNode_run _ _ hInv.1, pmatch_run, pmatchState_pos _ _ htok,
          freshNode, TreeNode.isNull, h2, h3, hcall, derefName, TreeNode.setName]
      · refine ⟨(freshNode .IdK).setName s.tokenString, getTokenState s, ?_,
          hI1, le_of_lt hm1, False.elim⟩
        simp [factor, bind_apply, pure_apply, getTok, getStr, htok,
          newExpNode_run _ _ hInv.1, pmatch_run, pmatchState_pos _ _ htok,
          freshNode, TreeNode.isNull, h2, h3, TreeNode.setName]
  case LPAREN =>
    have hI1 : Inv (getTokenState s) := inv_getTokenState s hInv
    have hm1 : mu (getTokenState s) < mu s := mu_getTokenState_lt s (by simp [htok])
    obtain ⟨rt, s2, hexp, hI2, hm2, _⟩ := hP.exp_ok (getTokenState s) hI1 (by omega)
    refine ⟨rt, pmatchState .RPAREN s2, ?_, inv_pmatchState _ _ hI2, ?_,
      False.elim⟩
    · simp [factor, bind_apply, pure_apply, getTok, htok, pmatch_run,
        pmatchState_pos _ _ htok, hexp]
    · have := mu_pmatchState_le .RPAREN s2
      omega
  all_goals {
    refine ⟨.null, getTokenState (errState s), ?_,
      inv_getTokenState _ (inv_errState _ hInv), ?_, False.elim⟩
    · simp [factor, bind_apply, pure_apply, getTok, getToken, syntaxError,
        htok, errState]
    · have := mu_getTokenState_le (errState s)
      simp [mu_errState] at this
      omega
  }

theorem term_loop_progress (n : Nat) (ih : ∀ m, m < n → Prog m) :
    ∀ t s, Inv s → 10 * mu s + 2 ≤ n → OkCond (term_loop n t) s False := by
  intro t s hInv hn
  obtain ⟨m, rfl⟩ : ∃ m, n = m + 1 := ⟨n - 1, by omega⟩
  have hP : Prog m := ih m (by omega)
  by_cases hc0 : s.token = .TIMES
  · have hm1 : mu (getTokenState s) < mu s := mu_getTokenState_lt s (by simp [hc0])
    have hI1 := inv_getTokenState s hInv
    obtain ⟨rf, s2, hfac, hI2, hm2, _⟩ := hP.factor_ok (getTokenState s) hI1 (by omega)
    obtain ⟨rt, s3, hloop, hI3, hm3, _⟩ :=
      hP.term_loop_ok (.mk .OpK (.op .TIMES) t rf .null .null .null) s2 hI2 (by omega)
    refine ⟨rt, s3, ?_, hI3, by omega, False.elim⟩
    simp [term_loop, bind_apply, pure_apply, getTok, hc0,
      newExpNode_run _ _ hInv.1, pmatch_run, pmatchState_pos _ _ hc0,
      freshNode, TreeNode.setChild, TreeNode.setOp, hfac, hloop]
  · by_cases hc1 : s.token = .OVER
    · have hm1 : mu (getTokenState s) < mu s := mu_getTokenState_lt s (by simp [hc1])
      have hI1 := inv_getTokenState s hInv
      obtain ⟨rf, s2, hfac, hI2, hm2, _⟩ := hP.factor_ok (getTokenState s) hI1 (by omega)
      obtain ⟨rt, s3, hloop, hI3, hm3, _⟩ :=
        hP.term_loop_ok (.mk .OpK (.op .OVER) t rf .null .null .null) s2 hI2 (by omega)
      refine ⟨rt, s3, ?_, hI3, by omega, False.elim⟩
      simp [term_loop, bind_apply, pure_apply, getTok, hc0, hc1,
        newExpNode_run _ _ hInv.1, pmatch_run, pmatchState_pos _ _ hc1,
        freshNode, TreeNode.setChild, TreeNode.setOp, hfac, hloop]
    · refine ⟨t, s, ?_, hInv, le_refl _, False.elim⟩
      simp [term_loop, bind_apply, pure_apply, getTok, hc0, hc1]

theorem term_progress (n : Nat) (ih : ∀ m, m < n → Prog m) :
    ∀ s, Inv s → 10 * mu s + 3 ≤ n → OkCond (term n) s False := by
  intro s hInv hn
  obtain ⟨m, rfl⟩ : ∃ m, n = m + 1 := ⟨n - 1, by omega⟩
  have hP : Prog m := ih m (by omega)
  obtain ⟨rf, s2, hfac, hI2, hm2, _⟩ := hP.factor_ok s hInv (by omega)
  obtain ⟨rt, s3, hloop, hI3, hm3, _⟩ := hP.term_loop_ok rf s2 hI2 (by omega)
  refine ⟨rt, s3, ?_, hI3, by omega, False.elim⟩
  simp [term, bind_apply, hfac, hloop]

theorem simple_exp_loop_progress (n : Nat) (ih : ∀ m, m < n → Prog m) :
    ∀ t s, Inv s → 10 * mu s + 3 ≤ n → OkCond (simple_exp_loop n t) s False := by
  intro t s hInv hn
  obtain ⟨m, rfl⟩ : ∃ m, n = m + 1 := ⟨n - 1, by omega⟩
  have hP : Prog m := ih m (by omega)
  by_cases hc0 : s.token = .PLUS
  · have hm1 : mu (getTokenState s) < mu s := mu_getTokenState_lt s (by simp [hc0])
    have hI1 := inv_getTokenState s hInv
    obtain ⟨rf, s2, hfac, hI2, hm2, _⟩ := hP.term_ok (getTokenState s) hI1 (by omega)
    obtain ⟨rt, s3, hloop, hI3, hm3, _⟩ :=
      hP.simple_exp_loop_ok (.mk .OpK (.op .PLUS) t rf .null .null .null) s2 hI2 (by omega)
    refine ⟨rt, s3, ?_, hI3, by omega, False.elim⟩
    simp [simple_exp_loop, bind_apply, pure_apply, getTok, hc0,
      newExpNode_run _ _ hInv.1, pmatch_run, pmatchState_pos _ _ hc0,
      freshNode, TreeNode.setChild, TreeNode.setOp, hfac, hloop]
  · by_cases hc1 : s.token = .MINUS
    · have hm1 : mu (getTokenState s) < mu s := mu_getTokenState_lt s (by simp [hc1])
      have hI1 := inv_getTokenState s hInv
      obtain ⟨rf, s2, hfac, hI2, hm2, _⟩ := hP.term_ok (getTokenState s) hI1 (by omega)
      obtain ⟨rt, s3, hloop, hI3, hm3, _⟩ :=
        hP.simple_exp_loop_ok (.mk .OpK (.op .MINUS) t rf .null .null .null) s2 hI2 (by omega)
      refine ⟨rt, s3, ?_, hI3, by omega, False.elim⟩
      simp [simple_exp_loop, bind_apply, pure_apply, getTok, hc0, hc1,
        newExpNode_run _ _ hInv.1, pmatch_run, pmatchState_pos _ _ hc1,
        freshNode, TreeNode.setChild, TreeNode.setOp, hfac, hloop]
    · by_cases hc2 : s.token = .AND
      · have hm1 : mu (getTokenState s) < mu s := mu_getTokenState_lt s (by simp [hc2])
        have hI1 := inv_getTokenState s hInv
        obtain ⟨rf, s2, hfac, hI2, hm2, _⟩ := hP.term_ok (getTokenState s) hI1 (by omega)
        obtain ⟨rt, s3, hloop, hI3, hm3, _⟩ :=
          hP.simple_exp_loop_ok (.mk .OpK (.op .AND) t rf .null .null .null) s2 hI2 (by omega)
        refine ⟨rt, s3, ?_, hI3, by omega, False.elim⟩
        simp [simple_exp_loop, bind_apply, pure_apply, getTok, hc0, hc1, hc2,
          newExpNode_run _ _ hInv.1, pmatch_run, pmatchState_pos _ _ hc2,
          freshNode, TreeNode.setChild, TreeNode.setOp, hfac, hloop]
      · refine ⟨t, s, ?_, hInv, le_refl _, False.elim⟩
        simp [simple_exp_loop, bind_apply, pure_apply, getTok, hc0, hc1, hc2]

theorem simple_exp_progress (n : Nat) (ih : ∀ m, m < n → Prog m) :
    ∀ s, Inv s → 10 * mu s + 4 ≤ n → OkCond (simple_exp n) s False := by
  intro s hInv hn
  obtain ⟨m, rfl⟩ : ∃ m, n = m + 1 := ⟨n - 1, by omega⟩
  have hP : Prog m := ih m (by omega)
  obtain ⟨rf, s2, hfac, hI2, hm2, _⟩ := hP.term_ok s hInv (by omega)
  obtain ⟨rt, s3, hloop, hI3, hm3, _⟩ := hP.simple_exp_loop_ok rf s2 hI2 (by omega)
  refine ⟨rt, s3, ?_, hI3, by omega, False.elim⟩
  simp [simple_exp, bind_apply, hfac, hloop]

theorem exp_progress (n : Nat) (ih : ∀ m, m < n → Prog m) :
    ∀ s, Inv s → 10 * mu s + 5 ≤ n → OkCond (exp n) s False := by
  intro s hInv hn
  obtain ⟨m, rfl⟩ : ∃ m, n = m + 1 := ⟨n - 1, by omega⟩
  have hP : Prog m := ih m (by omega)
  obtain ⟨rt, s2, hse, hI2, hm2, _⟩ := hP.simple_exp_ok s hInv (by omega)
  by_cases hc0 : s2.token = .LT
  · have hm3 : mu (getTokenState s2) < mu s2 := mu_getTokenState_lt s2 (by simp [hc0])
    have hI3 := inv_getTokenState s2 hI2
    obtain ⟨rs, s4, hse2, hI4, hm4, _⟩ := hP.simple_exp_ok (getTokenState s2) hI3 (by omega)
    refine ⟨.mk .OpK (.op .LT) rt rs .null .null .null, s4, ?_, hI4, by omega, False.elim⟩
    simp [exp, bind_apply, pure_apply, getTok, hse, hc0,
      newExpNode_run _ _ hI2.1, pmatch_run, pmatchState_pos _ _ hc0,
      freshNode, TreeNode.setChild, TreeNode.setOp, hse2]
  · by_cases hc1 : s2.token = .EQ
    · have hm3 : mu (getTokenState s2) < mu s2 := mu_getTokenState_lt s2 (by simp [hc1])
      have hI3 := inv_getTokenState s2 hI2
      obtain ⟨rs, s4, hse2, hI4, hm4, _⟩ := hP.simple_exp_ok (getTokenState s2) hI3 (by omega)
      refine ⟨.mk .OpK (.op .EQ) rt rs .null .null .null, s4, ?_, hI4, by omega, False.elim⟩
      simp [exp, bind_apply, pure_apply, getTok, hse, hc0, hc1,
        newExpNode_run _ _ hI2.1, pmatch_run, pmatchState_pos _ _ hc1,
        freshNode, TreeNode.setChild, TreeNode.setOp, hse2]
    · by_cases hc2 : s2.token = .GT
      · have hm3 : mu (getTokenState s2) < mu s2 := mu_getTokenState_lt s2 (by simp [hc2])
        have hI3 := inv_getTokenState s2 hI2
        obtain ⟨rs, s4, hse2, hI4, hm4, _⟩ := hP.simple_exp_ok (getTokenState s2) hI3 (by omega)
        refine ⟨.mk .OpK (.op .GT) rt rs .null .null .null, s4, ?_, hI4, by omega, False.elim⟩
        simp [exp, bind_apply, pure_apply, getTok, hse, hc0, hc1, hc2,
          newExpNode_run _ _ hI2.1, pmatch_run, pmatchState_pos _ _ hc2,
          freshNode, TreeNode.setChild, TreeNode.setOp, hse2]
      · refine ⟨rt, s2, ?_, hI2, hm2, False.elim⟩
        simp [exp, bind_apply, pure_apply, getTok, hse, hc0, hc1, hc2]

theorem dim_exp_loop_progress (n : Nat) (ih : ∀ m, m < n → Prog m) :
    ∀ ed acc ln s, Inv s → 10 * mu s + 2 ≤ n →
      OkCond (dim_exp_loop n ed acc ln) s False := by
  intro ed acc ln s hInv hn
  obtain ⟨m, rfl⟩ : ∃ m, n = m + 1 := ⟨n - 1, by omega⟩
  have hP : Prog m := ih m (by omega)
  by_cases hc : s.token = .LMBRACKET
  · have hI1 : Inv (getTokenState s) := inv_getTokenState s hInv
    have hm1 : mu (getTokenState s) < mu s := mu_getTokenState_lt s (by simp [hc])
    cases ed with
    | false =>
      have hI2 : Inv (pmatchState .RMBRACKET (getTokenState s)) :=
        inv_pmatchState _ _ hI1
      have hm2 := mu_pmatchState_le .RMBRACKET (getTokenState s)
      obtain ⟨pr, s3, hrec, hI3, hm3, _⟩ :=
        hP.dim_exp_loop_ok false
          (chainPush acc ln (freshNode .DimK)).1
          (chainPush acc ln (freshNode .DimK)).2
          (pmatchState .RMBRACKET (getTokenState s)) hI2 (by omega)
      refine ⟨pr, s3, ?_, hI3, by omega, False.elim⟩
      simp [dim_exp_loop, bind_apply, pure_apply, getTok, hc, pmatch_run,
        pmatchState_pos _ _ hc, newExpNode_run _ _ hI1.1, freshNode_isNull,
        hrec]
    | true =>
      by_cases h2 : (getTokenState s).token = .ID
      · have hm2 : mu (getTokenState (getTokenState s)) < mu (getTokenState s) :=
          mu_getTokenState_lt _ (by simp [h2])
        have hI2 : Inv (getTokenState (getTokenState s)) :=
          inv_getTokenState _ hI1
        have hI3 : Inv (pmatchState .RMBRACKET (getTokenState (getTokenState s))) :=
          inv_pmatchState _ _ hI2
        have hm3 := mu_pmatchState_le .RMBRACKET (getTokenState (getTokenState s))
        obtain ⟨pr, s4, hrec, hI4, hm4, _⟩ :=
          hP.dim_exp_loop_ok true
            (chainPush acc ln ((freshNode .DimK).setChild 0
              ((freshNode .IdK).setName (getTokenState s).tokenString))).1
            (chainPush acc ln ((freshNode .DimK).setChild 0
              ((freshNode .IdK).setName (getTokenState s).tokenString))).2
            (pmatchState .RMBRACKET (getTokenState (getTokenState s))) hI3
            (by omega)
        refine ⟨pr, s4, ?_, hI4, by omega, False.elim⟩
        simp [dim_exp_loop, bind_apply, pure_apply, getTok, getStr, hc, h2,
          pmatch_run, pmatchState_pos _ _ hc, pmatchState_pos _ _ h2,
          newExpNode_run _ _ hI1.1, freshNode_isNull, hrec]
      · obtain ⟨e, s2, hse, hI2, hm2, _⟩ :=
          hP.simple_exp_ok (getTokenState s) hI1 (by omega)
        have hI3 : Inv (pmatchState .RMBRACKET s2) := inv_pmatchState _ _ hI2
        have hm3 := mu_pmatchState_le .RMBRACKET s2
        obtain ⟨pr, s4, hrec, hI4, hm4, _⟩ :=
          hP.dim_exp_loop_ok true
            (chainPush acc ln ((freshNode .DimK).setChild 0 e)).1
            (chainPush acc ln ((freshNode .DimK).setChild 0 e)).2
            (pmatchState .RMBRACKET s2) hI3 (by omega)
        refine ⟨pr, s4, ?_, hI4, by omega, False.elim⟩
        simp [dim_exp_loop, bind_apply, pure_apply, getTok, hc, h2,
          pmatch_run, pmatchState_pos _ _ hc, newExpNode_run _ _ hI1.1,
          freshNode_isNull, hse, hrec]
  · refine ⟨(acc, ln), s, ?_, hInv, le_refl _, False.elim⟩
    simp [dim_exp_loop, bind_apply, pure_apply, getTok, hc]

theorem dim_exp_progress (n : Nat) (ih : ∀ m, m < n → Prog m) :
    ∀ ed s, Inv s → 10 * mu s + 3 ≤ n → OkCond (dim_exp n ed) s False := by
  intro ed s hInv hn
  obtain ⟨m, rfl⟩ : ∃ m, n = m + 1 := ⟨n - 1, by omega⟩
  have hP : Prog m := ih m (by omega)
  obtain ⟨pr, s2, hloop, hI2, hm2, _⟩ :=
    hP.dim_exp_loop_ok ed [] true s hInv (by omega)
  refine ⟨linkSiblings pr.1, s2, ?_, hI2, hm2, False.elim⟩
  simp [dim_exp, bind_apply, pure_apply, hloop]

theorem call_args_loop_progress (n : Nat) (ih : ∀ m, m < n → Prog m) :
    ∀ acc s, Inv s → 10 * mu s + 6 ≤ n →
      OkCond (call_args_loop n false acc) s False := by
  intro acc s hInv hn
  obtain ⟨m, rfl⟩ : ∃ m, n = m + 1 := ⟨n - 1, by omega⟩
  have hP : Prog m := ih m (by omega)
  by_cases hc : s.token = .RPAREN
  · refine ⟨acc, s, ?_, hInv, le_refl _, False.elim⟩
    simp [call_args_loop, bind_apply, pure_apply, getTok, hc]
  · obtain ⟨p, s2, hexp, hI2, hm2, _⟩ := hP.exp_ok s hInv (by omega)
    cases p with
    | null =>
      by_cases hcm : s2.token = .COMMA
      · have hm3 : mu (getTokenState s2) < mu s2 :=
          mu_getTokenState_lt s2 (by simp [hcm])
        obtain ⟨r, s4, hrec, hI4, hm4, _⟩ :=
          hP.call_args_loop_ok acc (getTokenState s2)
            (inv_getTokenState s2 hI2) (by omega)
        refine ⟨r, s4, ?_, hI4, by omega, False.elim⟩
        simp [call_args_loop, bind_apply, pure_apply, getTok, hc, hexp, hcm,
          pmatch_run, pmatchState_pos _ _ hcm, hrec]
      · refine ⟨acc, s2, ?_, hI2, hm2, False.elim⟩
        simp [call_args_loop, bind_apply, pure_apply, getTok, hc, hexp, hcm]
    | mk k a c0 c1 c2 c3 sib =>
      by_cases hcm : s2.token = .COMMA
      · have hm3 : mu (getTokenState s2) < mu s2 :=
          mu_getTokenState_lt s2 (by simp [hcm])
        obtain ⟨r, s4, hrec, hI4, hm4, _⟩ :=
          hP.call_args_loop_ok (acc ++ [.mk k a c0 c1 c2 c3 sib])
            (getTokenState s2) (inv_getTokenState s2 hI2) (by omega)
        refine ⟨r, s4, ?_, hI4, by omega, False.elim⟩
        simp [call_args_loop, bind_apply, pure_apply, getTok, hc, hexp, hcm,
          pmatch_run, pmatchState_pos _ _ hcm, hrec]
      · refine ⟨acc ++ [.mk k a c0 c1 c2 c3 sib], s2, ?_, hI2, hm2, False.elim⟩
        simp [call_args_loop, bind_apply, pure_apply, getTok, hc, hexp, hcm]

theorem call_stmt_progress (n : Nat) (ih : ∀ m, m < n → Prog m) :
    ∀ name s, Inv s → s.token = .LPAREN → 10 * mu s + 2 ≤ n →
      OkCond (call_stmt n name) s True := by
  intro name s hInv hpre hn
  obtain ⟨m, rfl⟩ : ∃ m, n = m + 1 := ⟨n - 1, by omega⟩
  have hP : Prog m := ih m (by omega)
  have hm1 : mu (getTokenState s) < mu s := mu_getTokenState_lt s (by simp [hpre])
  obtain ⟨args, s2, hargs, hI2, hm2, _⟩ :=
    hP.call_args_loop_ok [] (getTokenState s) (inv_getTokenState s hInv)
      (by omega)
  have hm3 := mu_pmatchState_le .RPAREN s2
  refine ⟨.mk .CallK (.name name) (linkSiblings args) .null .null .null .null,
    pmatchState .RPAREN s2, ?_, inv_pmatchState _ _ hI2, by omega,
    fun _ => by omega⟩
  simp [call_stmt, bind_apply, pure_apply, newStmtNode_run _ _ hInv.1,
    freshNode, TreeNode.setName, TreeNode.setChild, TreeNode.isNull,
    pmatch_run, pmatchState_pos _ _ hpre, hargs]

theorem value_exp_progress (n : Nat) (ih : ∀ m, m < n → Prog m) :
    ∀ s, Inv s → s.token = .ASSIGN → 10 * mu s + 2 ≤ n →
      OkCond (value_exp n) s True := by
  intro s hInv hpre hn
  obtain ⟨m, rfl⟩ : ∃ m, n = m + 1 := ⟨n - 1, by omega⟩
  have hP : Prog m := ih m (by omega)
  have hm1 : mu (getTokenState s) < mu s := mu_getTokenState_lt s (by simp [hpre])
  have hI1 : Inv (getTokenState s) := inv_getTokenState s hInv
  by_cases hlam : (getTokenState s).token = .LAMBDA
  · obtain ⟨l, s2, hl, hI2, hm2, _⟩ :=
      hP.lambda_exp_ok (getTokenState s) hI1 hlam (by omega)
    refine ⟨.mk .ValueK .unset l .null .null .null .null, s2, ?_, hI2,
      by omega, fun _ => by omega⟩
    simp [value_exp, bind_apply, pure_apply, getTok, newExpNode_run _ _ hInv.1,
      freshNode, TreeNode.setChild, pmatch_run, pmatchState_pos _ _ hpre,
      hlam, hl]
  · obtain ⟨e, s2, he, hI2, hm2, _⟩ := hP.exp_ok (getTokenState s) hI1 (by omega)
    refine ⟨.mk .ValueK .unset e .null .null .null .null, s2, ?_, hI2,
      by omega, fun _ => by omega⟩
    simp [value_exp, bind_apply, pure_apply, getTok, newExpNode_run _ _ hInv.1,
      freshNode, TreeNode.setChild, pmatch_run, pmatchState_pos _ _ hpre,
      hlam, he]

theorem lambda_exp_progress (n : Nat) (ih : ∀ m, m < n → Prog m) :
    ∀ s, Inv s → s.token = .LAMBDA → 10 * mu s + 2 ≤ n →
      OkCond (lambda_exp n) s True := by
  intro s hInv hpre hn
  obtain ⟨m, rfl⟩ : ∃ m, n = m + 1 := ⟨n - 1, by omega⟩
  have hP : Prog m := ih m (by omega)
  have hm1 : mu (getTokenState s) < mu s := mu_getTokenState_lt s (by simp [hpre])
  have hI1 : Inv (getTokenState s) := inv_getTokenState s hInv
  obtain ⟨ps, s2, hps, hI2, hm2, _⟩ := hP.params_ok (getTokenState s) hI1 (by omega)
  have hm3 := mu_pmatchState_le .COLON s2
  obtain ⟨e, s4, he, hI4, hm4, _⟩ :=
    hP.exp_ok (pmatchState .COLON s2) (inv_pmatchState _ _ hI2) (by omega)
  refine ⟨.mk .FuncK (.name "lambda") ps e .null .null .null, s4, ?_, hI4,
    by omega, fun _ => by omega⟩
  simp [lambda_exp, bind_apply, pure_apply, newStmtNode_run _ _ hInv.1,
    freshNode, TreeNode.setName, TreeNode.setChild, pmatch_run,
    pmatchState_pos _ _ hpre, hps, he]

theorem multi_value_loop_progress (n : Nat) (ih : ∀ m, m < n → Prog m) :
    ∀ acc ln s, Inv s → 10 * mu s + 6 ≤ n →
      OkCond (multi_value_loop n acc ln) s False := by
  intro acc ln s hInv hn
  obtain ⟨m, rfl⟩ : ∃ m, n = m + 1 := ⟨n - 1, by omega⟩
  have hP : Prog m := ih m (by omega)
  obtain ⟨e, s2, hexp, hI2, hm2, _⟩ := hP.exp_ok s hInv (by omega)
  by_cases hcm : s2.token = .COMMA
  · have hm3 : mu (getTokenState s2) < mu s2 :=
      mu_getTokenState_lt s2 (by simp [hcm])
    obtain ⟨r, s4, hrec, hI4, hm4, _⟩ :=
      hP.multi_value_loop_ok
        (chainPush acc ln (.mk .ValueK .unset e .null .null .null .null)).1
        (chainPush acc ln (.mk .ValueK .unset e .null .null .null .null)).2
        (getTokenState s2) (inv_getTokenState s2 hI2) (by omega)
    refine ⟨r, s4, ?_, hI4, by omega, False.elim⟩
    simp [multi_value_loop, bind_apply, pure_apply, getTok,
      newExpNode_run _ _ hInv.1, freshNode, TreeNode.setChild, hexp, hcm,
      pmatch_run, pmatchState_pos _ _ hcm, hrec]
  · refine ⟨chainPush acc ln (.mk .ValueK .unset e .null .null .null .null),
      s2, ?_, hI2, hm2, False.elim⟩
    simp [multi_value_loop, bind_apply, pure_apply, getTok,
      newExpNode_run _ _ hInv.1, freshNode, TreeNode.setChild, hexp, hcm]

theorem multi_value_exp_progress (n : Nat) (ih : ∀ m, m < n → Prog m) :
    ∀ s, Inv s → s.token = .ASSIGN → 10 * mu s + 2 ≤ n →
      OkCond (multi_value_exp n) s True := by
  intro s hInv hpre hn
  obtain ⟨m, rfl⟩ : ∃ m, n = m + 1 := ⟨n - 1, by omega⟩
  have hP : Prog m := ih m (by omega)
  have hm1 : mu (getTokenState s) < mu s := mu_getTokenState_lt s (by simp [hpre])
  have hm2 := mu_pmatchState_le .LPAREN (getTokenState s)
  obtain ⟨pr, s3, hloop, hI3, hm3, _⟩ :=
    hP.multi_value_loop_ok [] true (pmatchState .LPAREN (getTokenState s))
      (inv_pmatchState _ _ (inv_getTokenState s hInv)) (by omega)
  have hm4 := mu_pmatchState_le .RPAREN s3
  refine ⟨linkSiblings pr.1, pmatchState .RPAREN s3, ?_,
    inv_pmatchState _ _ hI3, by omega, fun _ => by omega⟩
  simp [multi_value_exp, bind_apply, pure_apply, pmatch_run,
    pmatchState_pos _ _ hpre, hloop]

theorem var_list_loop_progress (n : Nat) (ih : ∀ m, m < n → Prog m) :
    ∀ ed acc s, Inv s → 10 * mu s + 2 ≤ n →
      OkCond (var_list_loop n ed acc) s False := by
  intro ed acc s hInv hn
  obtain ⟨m, rfl⟩ : ∃ m, n = m + 1 := ⟨n - 1, by omega⟩
  have hP : Prog m := ih m (by omega)
  by_cases hid : s.token = .ID
  case neg =>
    refine ⟨acc, s, ?_, hInv, le_refl _, False.elim⟩
    simp [var_list_loop, bind_apply, pure_apply, getTok, hid]
  case pos =>
  have hI1 : Inv (getTokenState s) := inv_getTokenState s hInv
  have hm1 : mu (getTokenState s) < mu s := mu_getTokenState_lt s (by simp [hid])
  by_cases hasn : (getTokenState s).token = .ASSIGN
  · obtain ⟨v, s2, hv, hI2, hm2, _⟩ :=
      hP.value_exp_ok (getTokenState s) hI1 hasn (by omega)
    by_cases hcm : s2.token = .COMMA
    · have hm3 : mu (getTokenState s2) < mu s2 :=
        mu_getTokenState_lt s2 (by simp [hcm])
      obtain ⟨r, s4, hrec, hI4, hm4, _⟩ :=
        hP.var_list_loop_ok ed
          (setLastChildList (acc ++ [(freshNode .IdK).setName s.tokenString]) 0 v)
          (getTokenState s2) (inv_getTokenState s2 hI2) (by omega)
      refine ⟨r, s4, ?_, hI4, by omega, False.elim⟩
      simp [var_list_loop, bind_apply, pure_apply, getTok, getStr, hid,
        newExpNode_run _ _ hInv.1, freshNode_isNull, pmatch_run,
        pmatchState_pos _ _ hid, hasn, hv, setLastChild_append, hcm,
        pmatchState_pos _ _ hcm, hrec]
    · refine ⟨setLastChildList (acc ++ [(freshNode .IdK).setName s.tokenString]) 0 v,
        s2, ?_, hI2, by omega, False.elim⟩
      simp [var_list_loop, bind_apply, pure_apply, getTok, getStr, hid,
        newExpNode_run _ _ hInv.1, freshNode_isNull, pmatch_run,
        pmatchState_pos _ _ hid, hasn, hv, setLastChild_append, hcm]
  · by_cases hbr : (getTokenState s).token = .LMBRACKET
    · obtain ⟨d, s2, hd, hI2, hm2, _⟩ :=
        hP.dim_exp_ok ed (getTokenState s) hI1 (by omega)
      by_cases hmv : s2.token = .ASSIGN ∧ ed = true
      · obtain ⟨hasn2, hed⟩ := hmv
        subst hed
        obtain ⟨mv, s3, hmvrun, hI3, hm3, _⟩ :=
          hP.multi_value_exp_ok s2 hI2 hasn2 (by omega)
        have hne : setLastChildList
            (acc ++ [(freshNode .IdK).setName s.tokenString]) 0 d ≠ [] :=
          setLastChildList_ne_nil _ 0 d (by simp)
        have hslc := setLastChild_run
          (setLastChildList (acc ++ [(freshNode .IdK).setName s.tokenString]) 0 d)
          1 mv s3 hne
        by_cases hcm : s3.token = .COMMA
        · have hm4 : mu (getTokenState s3) < mu s3 :=
            mu_getTokenState_lt s3 (by simp [hcm])
          obtain ⟨r, s5, hrec, hI5, hm5, _⟩ :=
            hP.var_list_loop_ok true
              (setLastChildList
                (setLastChildList
                  (acc ++ [(freshNode .IdK).setName s.tokenString]) 0 d) 1 mv)
              (getTokenState s3) (inv_getTokenState s3 hI3) (by omega)
          refine ⟨r, s5, ?_, hI5, by omega, False.elim⟩
          simp [var_list_loop, bind_apply, pure_apply, getTok, getStr, hid,
            newExpNode_run _ _ hInv.1, freshNode_isNull, pmatch_run,
            pmatchState_pos _ _ hid, hasn, hbr, hd, setLastChild_append,
            hasn2, hmvrun, hslc, hcm, pmatchState_pos _ _ hcm, hrec]
        · refine ⟨setLastChildList
              (setLastChildList
                (acc ++ [(freshNode .IdK).setName s.tokenString]) 0 d) 1 mv,
            s3, ?_, hI3, by omega, False.elim⟩
          simp [var_list_loop, bind_apply, pure_apply, getTok, getStr, hid,
            newExpNode_run _ _ hInv.1, freshNode_isNull, pmatch_run,
            pmatchState_pos _ _ hid, hasn, hbr, hd, setLastChild_append,
            hasn2, hmvrun, hslc, hcm]
      · by_cases hcm : s2.token = .COMMA
        · have hm3 : mu (getTokenState s2) < mu s2 :=
            mu_getTokenState_lt s2 (by simp [hcm])
          obtain ⟨r, s4, hrec, hI4, hm4, _⟩ :=
            hP.var_list_loop_ok ed
              (setLastChildList
                (acc ++ [(freshNode .IdK).setName s.tokenString]) 0 d)
              (getTokenState s2) (inv_getTokenState s2 hI2) (by omega)
          refine ⟨r, s4, ?_, hI4, by omega, False.elim⟩
          simp [var_list_loop, bind_apply, pure_apply, getTok, getStr, hid,
            newExpNode_run _ _ hInv.1, freshNode_isNull, pmatch_run,
            pmatchState_pos _ _ hid, hasn, hbr, hd, setLastChild_append,
            hmv, hcm, pmatchState_pos _ _ hcm, hrec]
        · refine ⟨setLastChildList
              (acc ++ [(freshNode .IdK).setName s.tokenString]) 0 d,
            s2, ?_, hI2, by omega, False.elim⟩
          simp [var_list_loop, bind_apply, pure_apply, getTok, getStr, hid,
            newExpNode_run _ _ hInv.1, freshNode_isNull, pmatch_run,
            pmatchState_pos _ _ hid, hasn, hbr, hd, setLastChild_append,
            hmv, hcm]
    · by_cases hcm : (getTokenState s).token = .COMMA
      · have hm2 : mu (getTokenState (getTokenState s)) < mu (getTokenState s) :=
          mu_getTokenState_lt _ (by simp [hcm])
        obtain ⟨r, s3, hrec, hI3, hm3, _⟩ :=
          hP.var_list_loop_ok ed
            (acc ++ [(freshNode .IdK).setName s.tokenString])
            (getTokenState (getTokenState s)) (inv_getTokenState _ hI1)
            (by omega)
        refine ⟨r, s3, ?_, hI3, by omega, False.elim⟩
        simp [var_list_loop, bind_apply, pure_apply, getTok, getStr, hid,
          newExpNode_run _ _ hInv.1, freshNode_isNull, pmatch_run,
          pmatchState_pos _ _ hid, hasn, hbr, hcm, pmatchState_pos _ _ hcm,
          hrec]
      · refine ⟨acc ++ [(freshNode .IdK).setName s.tokenString],
          getTokenState s, ?_, hI1, by omega, False.elim⟩
        simp [var_list_loop, bind_apply, pure_apply, getTok, getStr, hid,
          newExpNode_run _ _ hInv.1, freshNode_isNull, pmatch_run,
          pmatchState_pos _ _ hid, hasn, hbr, hcm]

theorem var_list_progress (n : Nat) (ih : ∀ m, m < n → Prog m) :
    ∀ ed s, Inv s → 10 * mu s + 3 ≤ n → OkCond (var_list n ed) s False := by
  intro ed s hInv hn
  obtain ⟨m, rfl⟩ : ∃ m, n = m + 1 := ⟨n - 1, by omega⟩
  have hP : Prog m := ih m (by omega)
  obtain ⟨l, s2, hloop, hI2, hm2, _⟩ :=
    hP.var_list_loop_ok ed [] s hInv (by omega)
  refine ⟨linkSiblings l, s2, ?_, hI2, hm2, False.elim⟩
  simp [var_list, bind_apply, pure_apply, hloop]

theorem params_progress (n : Nat) (ih : ∀ m, m < n → Prog m) :
    ∀ s, Inv s → 10 * mu s + 4 ≤ n → OkCond (params n) s False := by
  intro s hInv hn
  obtain ⟨m, rfl⟩ : ∃ m, n = m + 1 := ⟨n - 1, by omega⟩
  have hP : Prog m := ih m (by omega)
  have hm1 := mu_pmatchState_le .LPAREN s
  obtain ⟨l, s2, hl, hI2, hm2, _⟩ :=
    hP.var_list_ok false (pmatchState .LPAREN s) (inv_pmatchState _ _ hInv)
      (by omega)
  have hm3 := mu_pmatchState_le .RPAREN s2
  refine ⟨.mk .ParamsK .unset l .null .null .null .null,
    pmatchState .RPAREN s2, ?_, inv_pmatchState _ _ hI2, by omega, False.elim⟩
  simp [params, bind_apply, pure_apply, newExpNode_run _ _ hInv.1,
    freshNode, TreeNode.setChild, derefSetChild, pmatch_run, hl]

theorem read_stmt_progress (n : Nat) (ih : ∀ m, m < n → Prog m) :
    ∀ s, Inv s → s.token = .READ → 10 * mu s + 2 ≤ n →
      OkCond (read_stmt n) s True := by
  intro s hInv hpre hn
  obtain ⟨m, rfl⟩ : ∃ m, n = m + 1 := ⟨n - 1, by omega⟩
  have hm1 : mu (pmatchState .READ s) < mu s :=
    mu_pmatchState_lt .READ s hpre (by decide)
  have hI1 : Inv (pmatchState .READ s) := inv_pmatchState _ _ hInv
  have hm2 := mu_pmatchState_le .ID (pmatchState .READ s)
  by_cases hid2 : (pmatchState .READ s).token = .ID
  · refine ⟨(freshNode .ReadK).setName (pmatchState .READ s).tokenString,
      pmatchState .ID (pmatchState .READ s), ?_, inv_pmatchState _ _ hI1,
      by omega, fun _ => by omega⟩
    simp [read_stmt, bind_apply, pure_apply, getTok, getStr,
      newStmtNode_run _ _ hInv.1, freshNode_isNull, pmatch_run, hid2]
  · refine ⟨freshNode .ReadK, pmatchState .ID (pmatchState .READ s), ?_,
      inv_pmatchState _ _ hI1, by omega, fun _ => by omega⟩
    simp [read_stmt, bind_apply, pure_apply, getTok, getStr,
      newStmtNode_run _ _ hInv.1, freshNode_isNull, pmatch_run, hid2]

theorem write_stmt_progress (n : Nat) (ih : ∀ m, m < n → Prog m) :
    ∀ s, Inv s → s.token = .WRITE → 10 * mu s + 2 ≤ n →
      OkCond (write_stmt n) s True := by
  intro s hInv hpre hn
  obtain ⟨m, rfl⟩ : ∃ m, n = m + 1 := ⟨n - 1, by omega⟩
  have hP : Prog m := ih m (by omega)
  have hm1 : mu (pmatchState .WRITE s) < mu s :=
    mu_pmatchState_lt .WRITE s hpre (by decide)
  obtain ⟨e, s2, he, hI2, hm2, _⟩ :=
    hP.exp_ok (pmatchState .WRITE s) (inv_pmatchState _ _ hInv) (by omega)
  refine ⟨.mk .WriteK .unset e .null .null .null .null, s2, ?_, hI2,
    by omega, fun _ => by omega⟩
  simp [write_stmt, bind_apply, pure_apply, newStmtNode_run _ _ hInv.1,
    freshNode, TreeNode.setChild, pmatch_run, he]

theorem return_stmt_progress (n : Nat) (ih : ∀ m, m < n → Prog m) :
    ∀ s, Inv s → s.token = .RETURN → 10 * mu s + 2 ≤ n →
      OkCond (return_stmt n) s True := by
  intro s hInv hpre hn
  obtain ⟨m, rfl⟩ : ∃ m, n = m + 1 := ⟨n - 1, by omega⟩
  have hP : Prog m := ih m (by omega)
  have hm1 : mu (pmatchState .RETURN s) < mu s :=
    mu_pmatchState_lt .RETURN s hpre (by decide)
  obtain ⟨e, s2, he, hI2, hm2, _⟩ :=
    hP.exp_ok (pmatchState .RETURN s) (inv_pmatchState _ _ hInv) (by omega)
  refine ⟨.mk .ReturnK .unset e .null .null .null .null, s2, ?_, hI2,
    by omega, fun _ => by omega⟩
  simp [return_stmt, bind_apply, pure_apply, newStmtNode_run _ _ hInv.1,
    freshNode, TreeNode.setChild, pmatch_run, he]

theorem var_stmt_progress (n : Nat) (ih : ∀ m, m < n → Prog m) :
    ∀ s, Inv s → s.token = .VAR → 10 * mu s + 2 ≤ n →
      OkCond (var_stmt n) s True := by
  intro s hInv hpre hn
  obtain ⟨m, rfl⟩ : ∃ m, n = m + 1 := ⟨n - 1, by omega⟩
  have hP : Prog m := ih m (by omega)
  have hm1 : mu (pmatchState .VAR s) < mu s :=
    mu_pmatchState_lt .VAR s hpre (by decide)
  obtain ⟨l, s2, hl, hI2, hm2, _⟩ :=
    hP.var_list_ok true (pmatchState .VAR s) (inv_pmatchState _ _ hInv)
      (by omega)
  refine ⟨.mk .VarK .unset l .null .null .null .null, s2, ?_, hI2,
    by omega, fun _ => by omega⟩
  simp [var_stmt, bind_apply, pure_apply, newStmtNode_run _ _ hInv.1,
    freshNode, TreeNode.setChild, derefSetChild, pmatch_run, hl]

theorem repeat_stmt_progress (n : Nat) (ih : ∀ m, m < n → Prog m) :
    ∀ s, Inv s → s.token = .REPEAT → 10 * mu s + 2 ≤ n →
      OkCond (repeat_stmt n) s True := by
  intro s hInv hpre hn
  obtain ⟨m, rfl⟩ : ∃ m, n = m + 1 := ⟨n - 1, by omega⟩
  have hP : Prog m := ih m (by omega)
  have hm1 : mu (pmatchState .REPEAT s) < mu s :=
    mu_pmatchState_lt .REPEAT s hpre (by decide)
  obtain ⟨b, s2, hb, hI2, hm2, _⟩ :=
    hP.stmt_sequence_ok (pmatchState .REPEAT s) (inv_pmatchState _ _ hInv)
      (by omega)
  have hm3 := mu_pmatchState_le .UNTIL s2
  obtain ⟨e, s4, he, hI4, hm4, _⟩ :=
    hP.exp_ok (pmatchState .UNTIL s2) (inv_pmatchState _ _ hI2) (by omega)
  refine ⟨.mk .RepeatK .unset b e .null .null .null, s4, ?_, hI4,
    by omega, fun _ => by omega⟩
  simp [repeat_stmt, bind_apply, pure_apply, newStmtNode_run _ _ hInv.1,
    freshNode, TreeNode.setChild, pmatch_run, hb, he]

theorem while_stmt_progress (n : Nat) (ih : ∀ m, m < n → Prog m) :
    ∀ s, Inv s → s.token = .WHILE → 10 * mu s + 2 ≤ n →
      OkCond (while_stmt n) s True := by
  intro s hInv hpre hn
  obtain ⟨m, rfl⟩ : ∃ m, n = m + 1 := ⟨n - 1, by omega⟩
  have hP : Prog m := ih m (by omega)
  have hm1 : mu (pmatchState .WHILE s) < mu s :=
    mu_pmatchState_lt .WHILE s hpre (by decide)
  have hm2 := mu_pmatchState_le .LPAREN (pmatchState .WHILE s)
  obtain ⟨e, s3, he, hI3, hm3, _⟩ :=
    hP.exp_ok (pmatchState .LPAREN (pmatchState .WHILE s))
      (inv_pmatchState _ _ (inv_pmatchState _ _ hInv)) (by omega)
  have hm4 := mu_pmatchState_le .RPAREN s3
  obtain ⟨b, s5, hb, hI5, hm5, _⟩ :=
    hP.stmt_sequence_ok (pmatchState .RPAREN s3) (inv_pmatchState _ _ hI3)
      (by omega)
  have hm6 := mu_pmatchState_le .END s5
  refine ⟨.mk .WhileK .unset e b .null .null .null, pmatchState .END s5, ?_,
    inv_pmatchState _ _ hI5, by omega, fun _ => by omega⟩
  simp [while_stmt, bind_apply, pure_apply, newStmtNode_run _ _ hInv.1,
    freshNode, TreeNode.setChild, pmatch_run, he, hb]

theorem if_stmt_progress (n : Nat) (ih : ∀ m, m < n → Prog m) :
    ∀ s, Inv s → s.token = .IF → 10 * mu s + 2 ≤ n →
      OkCond (if_stmt n) s True := by
  intro s hInv hpre hn
  obtain ⟨m, rfl⟩ : ∃ m, n = m + 1 := ⟨n - 1, by omega⟩
  have hP : Prog m := ih m (by omega)
  have hm1 : mu (pmatchState .IF s) < mu s :=
    mu_pmatchState_lt .IF s hpre (by decide)
  obtain ⟨e, s2, he, hI2, hm2, _⟩ :=
    hP.exp_ok (pmatchState .IF s) (inv_pmatchState _ _ hInv) (by omega)
  have hm3 := mu_pmatchState_le .THEN s2
  obtain ⟨b, s4, hb, hI4, hm4, _⟩ :=
    hP.stmt_sequence_ok (pmatchState .THEN s2) (inv_pmatchState _ _ hI2)
      (by omega)
  by_cases helse : s4.token = .ELSE
  · have hm5 : mu (pmatchState .ELSE s4) < mu s4 :=
      mu_pmatchState_lt .ELSE s4 helse (by decide)
    obtain ⟨b2, s6, hb2, hI6, hm6, _⟩ :=
      hP.stmt_sequence_ok (pmatchState .ELSE s4) (inv_pmatchState _ _ hI4)
        (by omega)
    have hm7 := mu_pmatchState_le .END s6
    refine ⟨.mk .IfK .unset e b b2 .null .null, pmatchState .END s6, ?_,
      inv_pmatchState _ _ hI6, by omega, fun _ => by omega⟩
    simp [if_stmt, bind_apply, pure_apply, getTok, newStmtNode_run _ _ hInv.1,
      freshNode, TreeNode.setChild, pmatch_run, he, hb, helse, hb2]
  · have hm5 := mu_pmatchState_le .END s4
    refine ⟨.mk .IfK .unset e b .null .null .null, pmatchState .END s4, ?_,
      inv_pmatchState _ _ hI4, by omega, fun _ => by omega⟩
    simp [if_stmt, bind_apply, pure_apply, getTok, newStmtNode_run _ _ hInv.1,
      freshNode, TreeNode.setChild, pmatch_run, he, hb, helse]

theorem func_stmt_progress (n : Nat) (ih : ∀ m, m < n → Prog m) :
    ∀ s, Inv s → s.token = .FUNC → 10 * mu s + 2 ≤ n →
      OkCond (func_stmt n) s True := by
  intro s hInv hpre hn
  obtain ⟨m, rfl⟩ : ∃ m, n = m + 1 := ⟨n - 1, by omega⟩
  have hP : Prog m := ih m (by omega)
  have hm1 : mu (pmatchState .FUNC s) < mu s :=
    mu_pmatchState_lt .FUNC s hpre (by decide)
  have hI1 : Inv (pmatchState .FUNC s) := inv_pmatchState _ _ hInv
  by_cases hid2 : (pmatchState .FUNC s).token = .ID
  · have hm2 : mu (pmatchState .ID (pmatchState .FUNC s)) <
        mu (pmatchState .FUNC s) :=
      mu_pmatchState_lt .ID (pmatchState .FUNC s) hid2 (by decide)
    obtain ⟨ps, s3, hps, hI3, hm3, _⟩ :=
      hP.params_ok (pmatchState .ID (pmatchState .FUNC s))
        (inv_pmatchState _ _ hI1) (by omega)
    obtain ⟨b, s4, hb, hI4, hm4, _⟩ :=
      hP.stmt_sequence_ok s3 hI3 (by omega)
    have hm5 := mu_pmatchState_le .END s4
    refine ⟨.mk .FuncK (.name (pmatchState .FUNC s).tokenString) ps b
        .null .null .null, pmatchState .END s4, ?_, inv_pmatchState _ _ hI4,
      by omega, fun _ => by omega⟩
    simp [func_stmt, bind_apply, pure_apply, getTok, getStr,
      newStmtNode_run _ _ hInv.1, freshNode, TreeNode.setChild,
      TreeNode.setName, TreeNode.isNull, pmatch_run, hid2, hps, hb]
  · obtain ⟨ps, s3, hps, hI3, hm3, _⟩ :=
      hP.params_ok (pmatchState .FUNC s) hI1 (by omega)
    obtain ⟨b, s4, hb, hI4, hm4, _⟩ :=
      hP.stmt_sequence_ok s3 hI3 (by omega)
    have hm5 := mu_pmatchState_le .END s4
    refine ⟨.mk .FuncK .unset ps b .null .null .null, pmatchState .END s4, ?_,
      inv_pmatchState _ _ hI4, by omega, fun _ => by omega⟩
    simp [func_stmt, bind_apply, pure_apply, getTok, getStr,
      newStmtNode_run _ _ hInv.1, freshNode, TreeNode.setChild,
      TreeNode.setName, TreeNode.isNull, pmatch_run, hid2, hps, hb]

set_option maxHeartbeats 1600000 in
theorem for_stmt_progress (n : Nat) (ih : ∀ m, m < n → Prog m) :
    ∀ s, Inv s → s.token = .FOR → 10 * mu s + 2 ≤ n →
      OkCond (for_stmt n) s True := by
  intro s hInv hpre hn
  obtain ⟨m, rfl⟩ : ∃ m, n = m + 1 := ⟨n - 1, by omega⟩
  have hP : Prog m := ih m (by omega)
  have hm1 : mu (pmatchState .FOR s) < mu s :=
    mu_pmatchState_lt .FOR s hpre (by decide)
  have hm2 := mu_pmatchState_le .LPAREN (pmatchState .FOR s)
  have hI2 : Inv (pmatchState .LPAREN (pmatchState .FOR s)) :=
    inv_pmatchState _ _ (inv_pmatchState _ _ hInv)
  by_cases hvar : (pmatchState .LPAREN (pmatchState .FOR s)).token = .VAR
  · have hm3 :=
      mu_pmatchState_le .VAR (pmatchState .LPAREN (pmatchState .FOR s))
    obtain ⟨l, s4, hl, hI4, hm4, _⟩ :=
      hP.var_list_ok true
        (pmatchState .VAR (pmatchState .LPAREN (pmatchState .FOR s)))
        (inv_pmatchState _ _ hI2) (by omega)
    have hm5 := mu_pmatchState_le .SEMI s4
    obtain ⟨c, s6, hc, hI6, hm6, _⟩ :=
      hP.exp_ok (pmatchState .SEMI s4) (inv_pmatchState _ _ hI4) (by omega)
    have hm7 := mu_pmatchState_le .SEMI s6
    obtain ⟨a, s8, ha, hI8, hm8, _⟩ :=
      hP.assign_stmt_ok (pmatchState .SEMI s6) (inv_pmatchState _ _ hI6)
        (by omega)
    have hm9 := mu_pmatchState_le .RPAREN s8
    obtain ⟨b, s10, hb, hI10, hm10, _⟩ :=
      hP.stmt_sequence_ok (pmatchState .RPAREN s8) (inv_pmatchState _ _ hI8)
        (by omega)
    have hm11 := mu_pmatchState_le .END s10
    refine ⟨.mk .ForK .unset l c a b .null, pmatchState .END s10, ?_,
      inv_pmatchState _ _ hI10, by omega, fun _ => by omega⟩
    simp [for_stmt, bind_apply, pure_apply, getTok, newStmtNode_run _ _ hInv.1,
      freshNode, TreeNode.setChild, pmatch_run, hvar, hl, hc, ha, hb]
  · obtain ⟨l, s4, hl, hI4, hm4, _⟩ :=
      hP.var_list_ok true (pmatchState .LPAREN (pmatchState .FOR s)) hI2
        (by omega)
    have hm5 := mu_pmatchState_le .SEMI s4
    obtain ⟨c, s6, hc, hI6, hm6, _⟩ :=
      hP.exp_ok (pmatchState .SEMI s4) (inv_pmatchState _ _ hI4) (by omega)
    have hm7 := mu_pmatchState_le .SEMI s6
    obtain ⟨a, s8, ha, hI8, hm8, _⟩ :=
      hP.assign_stmt_ok (pmatchState .SEMI s6) (inv_pmatchState _ _ hI6)
        (by omega)
    have hm9 := mu_pmatchState_le .RPAREN s8
    obtain ⟨b, s10, hb, hI10, hm10, _⟩ :=
      hP.stmt_sequence_ok (pmatchState .RPAREN s8) (inv_pmatchState _ _ hI8)
        (by omega)
    have hm11 := mu_pmatchState_le .END s10
    refine ⟨.mk .ForK .unset l c a b .null, pmatchState .END s10, ?_,
      inv_pmatchState _ _ hI10, by omega, fun _ => by omega⟩
    simp [for_stmt, bind_apply, pure_apply, getTok, newStmtNode_run _ _ hInv.1,
      freshNode, TreeNode.setChild, pmatch_run, hvar, hl, hc, ha, hb]

theorem assign_stmt_progress (n : Nat) (ih : ∀ m, m < n → Prog m) :
    ∀ s, Inv s → 10 * mu s + 5 ≤ n →
      OkCond (assign_stmt n) s (s.token = .ID) := by
  intro s hInv hn
  obtain ⟨m, rfl⟩ : ∃ m, n = m + 1 := ⟨n - 1, by omega⟩
  have hP : Prog m := ih m (by omega)
  have hI1 : Inv (pmatchState .ID s) := inv_pmatchState _ _ hInv
  by_cases hid : s.token = .ID
  · have hm1 : mu (pmatchState .ID s) < mu s :=
      mu_pmatchState_lt .ID s hid (by decide)
    by_cases hbr : (pmatchState .ID s).token = .LMBRACKET
    · obtain ⟨d, s2, hd, hI2, hm2, _⟩ :=
        hP.dim_exp_ok true (pmatchState .ID s) hI1 (by omega)
      by_cases hasn3 : s2.token = .ASSIGN
      · obtain ⟨v, s3, hv, hI3, hm3, _⟩ :=
          hP.value_exp_ok s2 hI2 hasn3 (by omega)
        refine ⟨.mk .AssignK (.name s.tokenString) d v .null .null .null, s3,
          ?_, hI3, by omega, fun _ => by omega⟩
        simp [assign_stmt, bind_apply, pure_apply, getTok, getStr,
          newStmtNode_run _ _ hInv.1, freshNode, TreeNode.setName,
          TreeNode.setChild, TreeNode.isNull, derefSetChild, pmatch_run,
          hid, hbr, hd, hasn3, hv]
      · refine ⟨.mk .AssignK (.name s.tokenString) d .null .null .null .null,
          s2, ?_, hI2, by omega, fun _ => by omega⟩
        simp [assign_stmt, bind_apply, pure_apply, getTok, getStr,
          newStmtNode_run _ _ hInv.1, freshNode, TreeNode.setName,
          TreeNode.setChild, TreeNode.isNull, derefSetChild, pmatch_run,
          hid, hbr, hd, hasn3]
    · by_cases hasn2 : (pmatchState .ID s).token = .ASSIGN
      · obtain ⟨v, s2, hv, hI2, hm2, _⟩ :=
          hP.value_exp_ok (pmatchState .ID s) hI1 hasn2 (by omega)
        refine ⟨.mk .AssignK (.name s.tokenString) v .null .null .null .null,
          s2, ?_, hI2, by omega, fun _ => by omega⟩
        simp [assign_stmt, bind_apply, pure_apply, getTok, getStr,
          newStmtNode_run _ _ hInv.1, freshNode, TreeNode.setName,
          TreeNode.setChild, TreeNode.isNull, pmatch_run, hid, hbr, hasn2, hv]
      · by_cases hlp : (pmatchState .ID s).token = .LPAREN
        · obtain ⟨rc, s2, hc, hI2, hm2, _⟩ :=
            hP.call_stmt_ok s.tokenString (pmatchState .ID s) hI1 hlp
              (by omega)
          refine ⟨rc, s2, ?_, hI2, by omega, fun _ => by omega⟩
          simp [assign_stmt, bind_apply, pure_apply, getTok, getStr,
            newStmtNode_run _ _ hInv.1, freshNode, TreeNode.setName,
            TreeNode.isNull, derefName, pmatch_run, hid, hbr, hasn2, hlp, hc]
        · refine ⟨.mk .AssignK (.name s.tokenString) .null .null .null .null
              .null, pmatchState .ID s, ?_, hI1, by omega, fun _ => by omega⟩
          simp [assign_stmt, bind_apply, pure_apply, getTok, getStr,
            newStmtNode_run _ _ hInv.1, freshNode, TreeNode.setName,
            TreeNode.isNull, pmatch_run, hid, hbr, hasn2, hlp]
  · have hm1 := mu_pmatchState_le .ID s
    by_cases hbr : (pmatchState .ID s).token = .LMBRACKET
    · obtain ⟨d, s2, hd, hI2, hm2, _⟩ :=
        hP.dim_exp_ok true (pmatchState .ID s) hI1 (by omega)
      by_cases hasn3 : s2.token = .ASSIGN
      · obtain ⟨v, s3, hv, hI3, hm3, _⟩ :=
          hP.value_exp_ok s2 hI2 hasn3 (by omega)
        refine ⟨.mk .AssignK .unset d v .null .null .null, s3, ?_, hI3,
          by omega, fun h => absurd h hid⟩
        simp [assign_stmt, bind_apply, pure_apply, getTok, getStr,
          newStmtNode_run _ _ hInv.1, freshNode, TreeNode.setChild,
          TreeNode.isNull, derefSetChild, pmatch_run, hid, hbr, hd, hasn3, hv]
      · refine ⟨.mk .AssignK .unset d .null .null .null .null, s2, ?_, hI2,
          by omega, fun h => absurd h hid⟩
        simp [assign_stmt, bind_apply, pure_apply, getTok, getStr,
          newStmtNode_run _ _ hInv.1, freshNode, TreeNode.setChild,
          TreeNode.isNull, derefSetChild, pmatch_run, hid, hbr, hd, hasn3]
    · by_cases hasn2 : (pmatchState .ID s).token = .ASSIGN
      · obtain ⟨v, s2, hv, hI2, hm2, _⟩ :=
          hP.value_exp_ok (pmatchState .ID s) hI1 hasn2 (by omega)
        refine ⟨.mk .AssignK .unset v .null .null .null .null, s2, ?_, hI2,
          by omega, fun h => absurd h hid⟩
        simp [assign_stmt, bind_apply, pure_apply, getTok, getStr,
          newStmtNode_run _ _ hInv.1, freshNode, TreeNode.setChild,
          TreeNode.isNull, pmatch_run, hid, hbr, hasn2, hv]
      · by_cases hlp : (pmatchState .ID s).token = .LPAREN
        · obtain ⟨rc, s2, hc, hI2, hm2, _⟩ :=
            hP.call_stmt_ok "" (pmatchState .ID s) hI1 hlp (by omega)
          refine ⟨rc, s2, ?_, hI2, by omega, fun h => absurd h hid⟩
          simp [assign_stmt, bind_apply, pure_apply, getTok, getStr,
            newStmtNode_run _ _ hInv.1, freshNode, TreeNode.isNull,
            derefName, pmatch_run, hid, hbr, hasn2, hlp, hc]
        · refine ⟨.mk .AssignK .unset .null .null .null .null .null,
            pmatchState .ID s, ?_, hI1, by omega, fun h => absurd h hid⟩
          simp [assign_stmt, bind_apply, pure_apply, getTok, getStr,
            newStmtNode_run _ _ hInv.1, freshNode, TreeNode.isNull,
            pmatch_run, hid, hbr, hasn2, hlp]

theorem statement_progress (n : Nat) (ih : ∀ m, m < n → Prog m) :
    ∀ s, Inv s → 10 * mu s + 6 ≤ n →
      OkCond (statement n) s (s.token ≠ .END ∧ s.token ≠ .ENDFILE) := by
  intro s hInv hn
  obtain ⟨m, rfl⟩ : ∃ m, n = m + 1 := ⟨n - 1, by omega⟩
  have hP : Prog m := ih m (by omega)
  cases htok : s.token
  case IF =>
    obtain ⟨r, s2, hr, hI2, hm2, hstr⟩ := hP.if_stmt_ok s hInv htok (by omega)
    refine ⟨r, s2, ?_, hI2, hm2, fun _ => hstr trivial⟩
    simp [statement, bind_apply, getTok, htok, hr]
  case REPEAT =>
    obtain ⟨r, s2, hr, hI2, hm2, hstr⟩ :=
      hP.repeat_stmt_ok s hInv htok (by omega)
    refine ⟨r, s2, ?_, hI2, hm2, fun _ => hstr trivial⟩
    simp [statement, bind_apply, getTok, htok, hr]
  case ID =>
    obtain ⟨r, s2, hr, hI2, hm2, hstr⟩ := hP.assign_stmt_ok s hInv (by omega)
    refine ⟨r, s2, ?_, hI2, hm2, fun _ => hstr htok⟩
    simp [statement, bind_apply, getTok, htok, hr]
  case READ =>
    obtain ⟨r, s2, hr, hI2, hm2, hstr⟩ := hP.read_stmt_ok s hInv htok (by omega)
    refine ⟨r, s2, ?_, hI2, hm2, fun _ => hstr trivial⟩
    simp [statement, bind_apply, getTok, htok, hr]
  case WRITE =>
    obtain ⟨r, s2, hr, hI2, hm2, hstr⟩ :=
      hP.write_stmt_ok s hInv htok (by omega)
    refine ⟨r, s2, ?_, hI2, hm2, fun _ => hstr trivial⟩
    simp [statement, bind_apply, getTok, htok, hr]
  case FUNC =>
    obtain ⟨r, s2, hr, hI2, hm2, hstr⟩ := hP.func_stmt_ok s hInv htok (by omega)
    refine ⟨r, s2, ?_, hI2, hm2, fun _ => hstr trivial⟩
    simp [statement, bind_apply, getTok, htok, hr]
  case VAR =>
    obtain ⟨r, s2, hr, hI2, hm2, hstr⟩ := hP.var_stmt_ok s hInv htok (by omega)
    refine ⟨r, s2, ?_, hI2, hm2, fun _ => hstr trivial⟩
    simp [statement, bind_apply, getTok, htok, hr]
  case WHILE =>
    obtain ⟨r, s2, hr, hI2, hm2, hstr⟩ :=
      hP.while_stmt_ok s hInv htok (by omega)
    refine ⟨r, s2, ?_, hI2, hm2, fun _ => hstr trivial⟩
    simp [statement, bind_apply, getTok, htok, hr]
  case FOR =>
    obtain ⟨r, s2, hr, hI2, hm2, hstr⟩ := hP.for_stmt_ok s hInv htok (by omega)
    refine ⟨r, s2, ?_, hI2, hm2, fun _ => hstr trivial⟩
    simp [statement, bind_apply, getTok, htok, hr]
  case RETURN =>
    obtain ⟨r, s2, hr, hI2, hm2, hstr⟩ :=
      hP.return_stmt_ok s hInv htok (by omega)
    refine ⟨r, s2, ?_, hI2, hm2, fun _ => hstr trivial⟩
    simp [statement, bind_apply, getTok, htok, hr]
  case END =>
    refine ⟨.null, s, ?_, hInv, le_refl _, fun h => absurd rfl h.1⟩
    simp [statement, bind_apply, pure_apply, getTok, htok]
  case ENDFILE =>
    refine ⟨.null, s, ?_, hInv, le_refl _, fun h => absurd rfl h.2⟩
    simp [statement, bind_apply, pure_apply, getTok, htok]
  all_goals {
    refine ⟨.null, getTokenState (errState s), ?_,
      inv_getTokenState _ (inv_errState _ hInv), ?_, ?_⟩
    · simp [statement, bind_apply, pure_apply, getTok, getToken, syntaxError,
        htok, errState]
    · have h1 := mu_getTokenState_le (errState s)
      have h2 := mu_errState s
      omega
    · intro h
      have h1 : mu (getTokenState (errState s)) < mu (errState s) :=
        mu_getTokenState_lt (errState s) (by simp [errState, htok])
      have h2 := mu_errState s
      omega
  }

theorem stmt_seq_loop_progress (n : Nat) (ih : ∀ m, m < n → Prog m) :
    ∀ acc s, Inv s → 10 * mu s + 7 ≤ n →
      OkCond (stmt_seq_loop n acc) s False := by
  intro acc s hInv hn
  obtain ⟨m, rfl⟩ : ∃ m, n = m + 1 := ⟨n - 1, by omega⟩
  have hP : Prog m := ih m (by omega)
  by_cases hterm : s.token ≠ .ENDFILE ∧ s.token ≠ .END ∧ s.token ≠ .ELSE ∧
      s.token ≠ .UNTIL
  · by_cases hsemi : s.token = .SEMI
    · have hm1 : mu (getTokenState s) < mu s :=
        mu_getTokenState_lt s (by simp [hsemi])
      have hI1 : Inv (getTokenState s) := inv_getTokenState s hInv
      by_cases hterm2 : (getTokenState s).token = .ENDFILE ∨
          (getTokenState s).token = .END ∨ (getTokenState s).token = .ELSE ∨
          (getTokenState s).token = .UNTIL
      · refine ⟨linkSiblings acc, getTokenState s, ?_, hI1, by omega,
          False.elim⟩
        simp [stmt_seq_loop, bind_apply, pure_apply, getTok, hterm, hsemi,
          pmatch_run, pmatchState_pos _ _ hsemi, hterm2]
      · obtain ⟨q, s2, hq, hI2, hm2, hstr⟩ :=
          hP.statement_ok (getTokenState s) hI1 (by omega)
        have hm2s : mu s2 < mu (getTokenState s) :=
          hstr ⟨fun h => hterm2 (Or.inr (Or.inl h)),
            fun h => hterm2 (Or.inl h)⟩
        obtain ⟨r, s3, hrec, hI3, hm3, _⟩ :=
          hP.stmt_seq_loop_ok (acc ++ nodeList q) s2 hI2 (by omega)
        refine ⟨r, s3, ?_, hI3, by omega, False.elim⟩
        simp [stmt_seq_loop, bind_apply, pure_apply, getTok, hterm, hsemi,
          pmatch_run, pmatchState_pos _ _ hsemi, hterm2, hq, hrec]
    · obtain ⟨q, s2, hq, hI2, hm2, hstr⟩ :=
        hP.statement_ok s hInv (by omega)
      have hm2s : mu s2 < mu s := hstr ⟨hterm.2.1, hterm.1⟩
      obtain ⟨r, s3, hrec, hI3, hm3, _⟩ :=
        hP.stmt_seq_loop_ok (acc ++ nodeList q) s2 hI2 (by omega)
      refine ⟨r, s3, ?_, hI3, by omega, False.elim⟩
      have hterm2 : ¬(s.token = .ENDFILE ∨ s.token = .END ∨
          s.token = .ELSE ∨ s.token = .UNTIL) := by
        rcases hterm with ⟨h1, h2, h3, h4⟩
        rintro (h | h | h | h) <;> simp_all
      simp [stmt_seq_loop, bind_apply, pure_apply, getTok, hterm, hsemi,
        hterm2, hq, hrec]
  · refine ⟨linkSiblings acc, s, ?_, hInv, le_refl _, False.elim⟩
    simp [stmt_seq_loop, bind_apply, pure_apply, getTok, hterm]

theorem stmt_sequence_progress (n : Nat) (ih : ∀ m, m < n → Prog m) :
    ∀ s, Inv s → 10 * mu s + 8 ≤ n → OkCond (stmt_sequence n) s False := by
  intro s hInv hn
  obtain ⟨m, rfl⟩ : ∃ m, n = m + 1 := ⟨n - 1, by omega⟩
  have hP : Prog m := ih m (by omega)
  obtain ⟨t, s2, ht, hI2, hm2, _⟩ := hP.statement_ok s hInv (by omega)
  obtain ⟨r, s3, hloop, hI3, hm3, _⟩ :=
    hP.stmt_seq_loop_ok (nodeList t) s2 hI2 (by omega)
  refine ⟨r, s3, ?_, hI3, by omega, False.elim⟩
  simp [stmt_sequence, bind_apply, ht, hloop]

theorem progAll (n : Nat) : Prog n := by
  induction n using Nat.strong_induction_on with
  | _ n ih =>
    exact {
      factor_ok := factor_progress n ih
      term_loop_ok := term_loop_progress n ih
      term_ok := term_progress n ih
      simple_exp_loop_ok := simple_exp_loop_progress n ih
      simple_exp_ok := simple_exp_progress n ih
      exp_ok := exp_progress n ih
      dim_exp_loop_ok := dim_exp_loop_progress n ih
      dim_exp_ok := dim_exp_progress n ih
      call_args_loop_ok := call_args_loop_progress n ih
      call_stmt_ok := call_stmt_progress n ih
      value_exp_ok := value_exp_progress n ih
      lambda_exp_ok := lambda_exp_progress n ih
      multi_value_loop_ok := multi_value_loop_progress n ih
      multi_value_exp_ok := multi_value_exp_progress n ih
      var_list_loop_ok := var_list_loop_progress n ih
      var_list_ok := var_list_progress n ih
      params_ok := params_progress n ih
      if_stmt_ok := if_stmt_progress n ih
      repeat_stmt_ok := repeat_stmt_progress n ih
      read_stmt_ok := read_stmt_progress n ih
      write_stmt_ok := write_stmt_progress n ih
      var_stmt_ok := var_stmt_progress n ih
      while_stmt_ok := while_stmt_progress n ih
      for_stmt_ok := for_stmt_progress n ih
      return_stmt_ok := return_stmt_progress n ih
      func_stmt_ok := func_stmt_progress n ih
      assign_stmt_ok := assign_stmt_progress n ih
      statement_ok := statement_progress n ih
      stmt_seq_loop_ok := stmt_seq_loop_progress n ih
      stmt_sequence_ok := stmt_sequence_progress n ih
    }

/-- Claim C10: under the preconditions that node allocation always succeeds
(the allocation oracle is empty, so newStmtNode and newExpNode never yield a
null node) and that the token source keeps yielding the end-of-file kind on
every read past exhaustion of the finite stream, parse terminates for every
finite token stream: with fuel 10 times the stream length plus 9 it returns
normally instead of running out of fuel, because every loop in every
production either consumes at least one token per iteration or exits. -/
theorem claim10_parse_terminates (ts : List Tok)
    (h : ∀ t ∈ ts, t.kind ≠ .ENDFILE) :
    ∃ r s1, parse (10 * ts.length + 9) (mkInit ts []) = .ok r s1 := by
  have hInv0 : Inv (mkInit ts []) := ⟨rfl, h⟩
  have hI1 : Inv (getTokenState (mkInit ts [])) := inv_getTokenState _ hInv0
  have hmu0 : mu (mkInit ts []) = ts.length := by simp [mu, mkInit]
  have hm1 := mu_getTokenState_le (mkInit ts [])
  have hP : Prog (10 * ts.length + 8) := progAll _
  obtain ⟨t, s2, hseq, hI2, hm2, _⟩ :=
    hP.stmt_sequence_ok (getTokenState (mkInit ts [])) hI1 (by omega)
  have hfuel : 10 * ts.length + 9 = (10 * ts.length + 8) + 1 := by omega
  rw [hfuel]
  by_cases hend : s2.token = .ENDFILE
  · refine ⟨t, s2, ?_⟩
    simp [parse, bind_apply, pure_apply, getToken, getTok, hseq, hend]
  · refine ⟨t, errState s2, ?_⟩
    simp [parse, bind_apply, pure_apply, getToken, getTok, syntaxError, hseq,
      hend, errState]

/-- Witness for C10: the concrete two-token stream `read x` satisfies the
no-end-of-file-token hypothesis and parses to completion with fuel 29. -/
theorem claim10_parse_terminates_witness :
    (∀ t ∈ [Tok.mk .READ "read", Tok.mk .ID "x"], t.kind ≠ .ENDFILE) ∧
    ∃ r s1, parse (10 * [Tok.mk .READ "read", Tok.mk .ID "x"].length + 9)
      (mkInit [Tok.mk .READ "read", Tok.mk .ID "x"] []) = .ok r s1 :=
  ⟨by decide, claim10_parse_terminates _ (by decide)⟩

end Tiny
